import Mathlib

/-!
Verification of the svgpath path-processing library: a shallow embedding of
its tokenizer, command parser, normalizer (simplify) and bounding-box engine,
together with theorems settling the specification claims.

Modelling conventions:
* Machine floats (`f64`) are idealized as exact numbers: the parsing /
  formatting pipeline is embedded over `ℚ` (decimal literals are exact
  rationals, so every stage is computable and concrete runs are decidable),
  and the geometric pipeline (arc conversion, bounding boxes) is embedded
  over `ℝ`, since it uses trigonometric functions and square roots.
* The `f64::INFINITY` / `f64::NEG_INFINITY` sentinels used by the
  bounding-box accumulator are modelled with `EReal` (`⊤` / `⊥`).
* The Rust iterator loops of the lexer and parser are embedded with an
  explicit fuel parameter; the fuel supplied (`input length + 1`) is always
  sufficient because every loop iteration consumes at least one character /
  token, which the fuel-independence lemmas below make precise.
-/

deriving instance DecidableEq for Except

namespace Svg

/-- A point, as in `parser.rs` (`struct Point { x: f64, y: f64 }`),
parametrized by the number type used to idealize `f64`. -/
structure Pt (α : Type) where
  x : α
  y : α
deriving DecidableEq, Repr

/-- `Command` from `parser.rs`: the full SVG-path primitive set, all
coordinates absolute. -/
inductive Command (α : Type) where
  | move (x y : α)
  | line (x y : α)
  | horizontal (x : α)
  | vertical (y : α)
  | cubic (x1 y1 x2 y2 x y : α)
  | quadratic (x1 y1 x y : α)
  | smoothCubic (x2 y2 x y : α)
  | smoothQuadratic (x y : α)
  | arc (rx ry x_axis_rotation : α) (large_arc_flag sweep_flag : Bool) (x y : α)
  | close
deriving DecidableEq, Repr

/-- `Token` from `lexer.rs`. -/
inductive Token where
  | command (c : Char)
  | number (n : ℚ)
deriving DecidableEq, Repr

/-- `LexerError` from `lexer.rs`. -/
inductive LexerError where
  | unexpectedCharacter (c : Char)
  | invalidCommand (c : Char)
  | invalidNumber (s : String)
deriving DecidableEq, Repr

/-- `ParserError` from `parser.rs`. -/
inductive ParserError where
  | lexerErr (e : LexerError)
  | unexpectedToken (t : Token)
  | missingArgument (cmd : Char) (expected found : ℕ)
  | noStartingCommand
  | endOfStream
deriving DecidableEq, Repr

/-! ## Tokenizer (`lexer.rs`) -/

/-- Characters skipped between tokens (`skip_whitespace_and_commas`). -/
def isSep (c : Char) : Bool := c.isWhitespace || c = ','

/-- `skip_whitespace_and_commas`. -/
def skipWs (cs : List Char) : List Char := cs.dropWhile isSep

/-- The scanning loop of `Lexer::read_number`.  `accRev` is the accumulated
`num_str` in reverse (so its head is the last accepted character). -/
def readNumGo (accRev : List Char) (hasDec hasExp : Bool) :
    List Char → List Char × List Char
  | [] => (accRev.reverse, [])
  | c :: rest =>
    if c = '-' ∨ c = '+' then
      if accRev = [] ∨ accRev.head? = some 'e' ∨ accRev.head? = some 'E' then
        readNumGo (c :: accRev) hasDec hasExp rest
      else
        (accRev.reverse, c :: rest)
    else if c.isDigit then
      readNumGo (c :: accRev) hasDec hasExp rest
    else if c = '.' ∧ hasDec = false ∧ hasExp = false then
      readNumGo (c :: accRev) true hasExp rest
    else if (c = 'e' ∨ c = 'E') ∧ hasExp = false then
      readNumGo (c :: accRev) hasDec true rest
    else
      (accRev.reverse, c :: rest)

/-- `Lexer::read_number`: the scanned text and the remaining input. -/
def readNum (cs : List Char) : List Char × List Char :=
  readNumGo [] false false cs

/-- `Lexer::is_valid_command`. -/
def isValidCommand (c : Char) : Bool :=
  c.toLower = 'm' ∨ c.toLower = 'l' ∨ c.toLower = 'h' ∨ c.toLower = 'v' ∨
  c.toLower = 'c' ∨ c.toLower = 's' ∨ c.toLower = 'q' ∨ c.toLower = 't' ∨
  c.toLower = 'a' ∨ c.toLower = 'z'

/-- Value of a list of decimal digit characters. -/
def digitsVal (ds : List Char) : ℕ :=
  ds.foldl (fun a c => 10 * a + (c.toNat - 48)) 0

/-- Model of Rust `str::parse::<f64>()` on the finite-number grammar
`[+-]? (digits [. digits*] | . digits+) ([eE] [+-]? digits+)?`, with the
exact decimal value (idealizing away the rounding to binary floating point;
the lexer can only feed it strings over `0-9 + - . e E`, never `inf`/`NaN`). -/
def rustParseFloat (s : String) : Option ℚ :=
  let cs := s.data
  let (sgn, cs) : ℚ × List Char :=
    match cs with
    | '+' :: r => (1, r)
    | '-' :: r => (-1, r)
    | _ => (1, cs)
  let ds₁ := cs.takeWhile Char.isDigit
  let cs := cs.dropWhile Char.isDigit
  let (ds₂, cs) : List Char × List Char :=
    match cs with
    | '.' :: r => (r.takeWhile Char.isDigit, r.dropWhile Char.isDigit)
    | _ => ([], cs)
  if ds₁ = [] ∧ ds₂ = [] then none
  else
    let mant : ℚ := (digitsVal ds₁ : ℚ) + (digitsVal ds₂ : ℚ) / 10 ^ ds₂.length
    match cs with
    | [] => some (sgn * mant)
    | e :: r =>
      if e = 'e' ∨ e = 'E' then
        let (esgn, r) : ℤ × List Char :=
          match r with
          | '+' :: r' => (1, r')
          | '-' :: r' => (-1, r')
          | _ => (1, r)
        let eds := r.takeWhile Char.isDigit
        if eds = [] ∨ r.dropWhile Char.isDigit ≠ [] then none
        else some (sgn * mant * (10 : ℚ) ^ (esgn * digitsVal eds))
      else none

/-- Result of lexing one number: `Ok(Number)` or `InvalidNumber`
(`read_number`'s final `parse::<f64>`). -/
def numToken (s : String) : Except LexerError Token :=
  match rustParseFloat s with
  | some q => .ok (.number q)
  | none => .error (.invalidNumber s)

/-- The lexer iterator (`Lexer::next`), run to exhaustion.  `fuel` bounds the
number of produced tokens; every step consumes at least one character, so
`length + 1` fuel always suffices (see `lexGo_fuel`). -/
def lexGo : ℕ → List Char → List (Except LexerError Token)
  | 0, _ => []
  | fuel + 1, cs =>
    match skipWs cs with
    | [] => []
    | c :: rest =>
      if c.isAlpha then
        (if isValidCommand c then .ok (.command c)
         else .error (.invalidCommand c)) :: lexGo fuel rest
      else if c.isDigit ∨ c = '-' ∨ c = '+' ∨ c = '.' then
        (numToken ⟨(readNum (c :: rest)).1⟩) :: lexGo fuel (readNum (c :: rest)).2
      else
        .error (.unexpectedCharacter c) :: lexGo fuel rest

/-- Tokenize a character list with the always-sufficient fuel. -/
def lexAll (cs : List Char) : List (Except LexerError Token) :=
  lexGo (cs.length + 1) cs

/-- Tokenize a whole input string (the `Lexer` iterator collected). -/
def lexStr (s : String) : List (Except LexerError Token) :=
  lexAll s.data

/-! ## Command parser (`parser.rs`) -/

/-- The mutable state of `Parser`: cursor, subpath start point, and the last
control point used for smooth-curve reflection. -/
structure PState where
  cursor : Pt ℚ
  start_point : Pt ℚ
  last_control_point : Option (Pt ℚ)
deriving DecidableEq, Repr

/-- Initial parser state (`Parser::new`). -/
def initPState : PState :=
  ⟨⟨0, 0⟩, ⟨0, 0⟩, none⟩

/-- `Parser::next_num`: pull the next number from the token stream. -/
def nextNum (toks : List (Except LexerError Token)) :
    Except ParserError (ℚ × List (Except LexerError Token)) :=
  match toks with
  | .ok (.number n) :: rest => .ok (n, rest)
  | .ok (.command c) :: _ => .error (.unexpectedToken (.command c))
  | .error e :: _ => .error (.lexerErr e)
  | [] => .error .endOfStream

/-- `Parser::reflect_control_point`. -/
def reflectCP (st : PState) : Pt ℚ :=
  match st.last_control_point with
  | some last => ⟨2 * st.cursor.x - last.x, 2 * st.cursor.y - last.y⟩
  | none => st.cursor

/-- `Parser::get_abs_point`: fetch two numbers and resolve them against the
cursor when the command letter was lowercase. -/
def getAbsPoint (isRel : Bool) (st : PState) (toks : List (Except LexerError Token)) :
    Except ParserError (Pt ℚ × List (Except LexerError Token)) := do
  let (x, toks) ← nextNum toks
  let (y, toks) ← nextNum toks
  if isRel then
    pure (⟨x + st.cursor.x, y + st.cursor.y⟩, toks)
  else
    pure (⟨x, y⟩, toks)

/-- `Parser::process_command`: consume the numeric arguments of command
letter `c`, update the parser state, and build the absolute command. -/
def processCommand (c : Char) (st : PState) (toks : List (Except LexerError Token)) :
    Except ParserError (Command ℚ × PState × List (Except LexerError Token)) :=
  let isRel := c.isLower
  let cmdType := c.toUpper
  if cmdType = 'M' then do
    let (p, toks) ← getAbsPoint isRel st toks
    pure (.move p.x p.y, ⟨p, p, none⟩, toks)
  else if cmdType = 'L' then do
    let (p, toks) ← getAbsPoint isRel st toks
    pure (.line p.x p.y, ⟨p, st.start_point, none⟩, toks)
  else if cmdType = 'H' then do
    let (x₀, toks) ← nextNum toks
    let x := if isRel then x₀ + st.cursor.x else x₀
    pure (.horizontal x, ⟨⟨x, st.cursor.y⟩, st.start_point, none⟩, toks)
  else if cmdType = 'V' then do
    let (y₀, toks) ← nextNum toks
    let y := if isRel then y₀ + st.cursor.y else y₀
    pure (.vertical y, ⟨⟨st.cursor.x, y⟩, st.start_point, none⟩, toks)
  else if cmdType = 'C' then do
    let (p1, toks) ← getAbsPoint isRel st toks
    let (p2, toks) ← getAbsPoint isRel st toks
    let (p, toks) ← getAbsPoint isRel st toks
    pure (.cubic p1.x p1.y p2.x p2.y p.x p.y, ⟨p, st.start_point, some p2⟩, toks)
  else if cmdType = 'S' then do
    let (p2, toks) ← getAbsPoint isRel st toks
    let (p, toks) ← getAbsPoint isRel st toks
    pure (.smoothCubic p2.x p2.y p.x p.y, ⟨p, st.start_point, some p2⟩, toks)
  else if cmdType = 'Q' then do
    let (p1, toks) ← getAbsPoint isRel st toks
    let (p, toks) ← getAbsPoint isRel st toks
    pure (.quadratic p1.x p1.y p.x p.y, ⟨p, st.start_point, some p1⟩, toks)
  else if cmdType = 'T' then do
    let (p, toks) ← getAbsPoint isRel st toks
    pure (.smoothQuadratic p.x p.y, ⟨p, st.start_point, some (reflectCP st)⟩, toks)
  else if cmdType = 'A' then do
    let (rx, toks) ← nextNum toks
    let (ry, toks) ← nextNum toks
    let (rot, toks) ← nextNum toks
    let (lf, toks) ← nextNum toks
    let (sf, toks) ← nextNum toks
    let (p, toks) ← getAbsPoint isRel st toks
    pure (.arc rx ry rot (lf ≠ 0) (sf ≠ 0) p.x p.y, ⟨p, st.start_point, none⟩, toks)
  else if cmdType = 'Z' then
    match toks with
    | .ok (.number n) :: _ => .error (.unexpectedToken (.number n))
    | _ => pure (.close, ⟨st.start_point, st.start_point, none⟩, toks)
  else
    .error (.lexerErr (.invalidCommand c))

/-- The inner loop of `Parser::parse`: implicit repetition of the current
command while the next token is a bare number (`M` repeating as `L`). -/
def innerRep : ℕ → Char → PState → List (Except LexerError Token) →
    List (Command ℚ) →
    Except ParserError (Char × PState × List (Except LexerError Token) × List (Command ℚ))
  | 0, _, _, _, _ => .error .endOfStream
  | fuel + 1, c, st, toks, acc =>
    match toks with
    | .ok (.number _) :: _ =>
      let c' := if c.toLower = 'm' then (if c.isLower then 'l' else 'L') else c
      match processCommand c' st toks with
      | .error e => .error e
      | .ok (cmd, st', toks') => innerRep fuel c' st' toks' (acc ++ [cmd])
    | _ => .ok (c, st, toks, acc)

/-- Is a lexer result an `Ok(Token::Number(_))`?  (the peek pattern used by
`Parser::parse` for the leading-number check and the implicit-repeat check). -/
def isNumTok : Except LexerError Token → Bool
  | .ok (.number _) => true
  | _ => false

/-- The outer loop of `Parser::parse`. -/
def outerLoop : ℕ → Option Char → PState → List (Except LexerError Token) →
    List (Command ℚ) → Except ParserError (List (Command ℚ))
  | 0, _, _, _, _ => .error .endOfStream
  | fuel + 1, lastCmd, st, toks, acc =>
    match toks with
    | [] => .ok acc
    | t :: rest =>
      if lastCmd = none ∧ isNumTok t then
        .error .noStartingCommand
      else
        match t with
        | .error e => .error (.lexerErr e)
        | .ok (.number n) => .error (.unexpectedToken (.number n))
        | .ok (.command c) =>
          match processCommand c st rest with
          | .error e => .error e
          | .ok (cmd, st', toks') =>
            match innerRep (toks'.length + 1) c st' toks' (acc ++ [cmd]) with
            | .error e => .error e
            | .ok (c'', st'', toks'', acc'') =>
              outerLoop fuel (some c'') st'' toks'' acc''

/-- `Parser::parse` on an input string: tokenize, then run the command loop,
returning the absolute command list or the first error. -/
def parse (s : String) : Except ParserError (List (Command ℚ)) :=
  let toks := lexStr s
  if toks.isEmpty then .error .endOfStream
  else outerLoop (toks.length + 1) none initPState toks []

/-! ## Text rendering (`impl fmt::Display` in `parser.rs` / `path.rs`) -/

/-- Decimal digits of a natural number, most significant first (the digit
loop of integer formatting); `fuel` bounds the division chain, `n + 1` is
always enough. -/
def natDigitsGo : ℕ → ℕ → List Char → List Char
  | 0, _, acc => acc
  | fuel + 1, n, acc =>
    let acc' := Char.ofNat (48 + n % 10) :: acc
    if n < 10 then acc' else natDigitsGo fuel (n / 10) acc'

/-- Decimal string of a natural number. -/
def natStr (n : ℕ) : String := ⟨natDigitsGo (n + 1) n []⟩

/-- Decimal string of an integer. -/
def intStr (i : ℤ) : String := (if i < 0 then "-" else "") ++ natStr i.natAbs

/-- Round a rational to the nearest integer, ties to even: the rounding used
by Rust's `{:.N}` float formatting (applied to the exact value). -/
def halfEven (q : ℚ) : ℤ :=
  let f := ⌊q⌋
  let r := q - f
  if r < 1 / 2 then f
  else if 1 / 2 < r then f + 1
  else if f % 2 = 0 then f else f + 1

/-- Left-pad a two-digit fractional part (`{:.2}` always prints 2 digits). -/
def pad2 (n : ℕ) : String := if n < 10 then "0" ++ natStr n else natStr n

/-- Model of `format!("{:.2}", q)` for a finite value: sign, integer part,
point, two fractional digits (value rounded half-to-even). -/
def fmt2 (q : ℚ) : String :=
  let k := halfEven (|q| * 100)
  (if q < 0 then "-" else "") ++ natStr (k / 100).toNat ++ "." ++ pad2 (k % 100).toNat

/-- `s.trim_end_matches(c)`: drop every trailing occurrence of `c`. -/
def dropTrail (c : Char) (s : String) : String :=
  ⟨(s.data.reverse.dropWhile (· = c)).reverse⟩

/-- `format_n` from `parser.rs`: integral values print with no fractional
part, others with up to 2 decimals, trailing zeros and the trailing point
trimmed. -/
def format_n (n : ℚ) : String :=
  if n.den = 1 then intStr n.num
  else dropTrail '.' (dropTrail '0' (fmt2 n))

/-- `impl fmt::Display for Command` (`parser.rs`). -/
def renderCmd : Command ℚ → String
  | .move x y => "M " ++ format_n x ++ " " ++ format_n y
  | .line x y => "L " ++ format_n x ++ " " ++ format_n y
  | .horizontal x => "H " ++ format_n x
  | .vertical y => "V " ++ format_n y
  | .cubic x1 y1 x2 y2 x y =>
    "C " ++ format_n x1 ++ " " ++ format_n y1 ++ "," ++ format_n x2 ++ " " ++
      format_n y2 ++ "," ++ format_n x ++ " " ++ format_n y
  | .quadratic x1 y1 x y =>
    "Q " ++ format_n x1 ++ " " ++ format_n y1 ++ "," ++ format_n x ++ " " ++ format_n y
  | .smoothCubic x2 y2 x y =>
    "S " ++ format_n x2 ++ " " ++ format_n y2 ++ "," ++ format_n x ++ " " ++ format_n y
  | .smoothQuadratic x y => "T " ++ format_n x ++ " " ++ format_n y
  | .arc rx ry rot laf swf x y =>
    "A " ++ format_n rx ++ " " ++ format_n ry ++ " " ++ format_n rot ++ " " ++
      (if laf then "1" else "0") ++ " " ++ (if swf then "1" else "0") ++ " " ++
      format_n x ++ " " ++ format_n y
  | .close => "Z"

/-- `impl fmt::Display for Path` (`path.rs`): commands space-joined with no
trailing separator.  (The Rust code indexes `commands.len() - 1`, which
underflows on an empty path; claim C9 shows `parse` never produces one.) -/
def renderPath : List (Command ℚ) → String
  | [] => ""
  | [c] => renderCmd c
  | c :: rest => renderCmd c ++ " " ++ renderPath rest

/-! ## Normalizer (`simplify.rs`), over `ℝ` -/

/-- Interpret the parser's exact rational coordinates as reals for the
geometric pipeline. -/
def castCmd : Command ℚ → Command ℝ
  | .move x y => .move x y
  | .line x y => .line x y
  | .horizontal x => .horizontal x
  | .vertical y => .vertical y
  | .cubic x1 y1 x2 y2 x y => .cubic x1 y1 x2 y2 x y
  | .quadratic x1 y1 x y => .quadratic x1 y1 x y
  | .smoothCubic x2 y2 x y => .smoothCubic x2 y2 x y
  | .smoothQuadratic x y => .smoothQuadratic x y
  | .arc rx ry rot laf swf x y => .arc rx ry rot laf swf x y
  | .close => .close

noncomputable section

/-- `f64::atan2` (`self = y`, `other = x`), as the argument of the complex
number `x + y·i` in `(-π, π]`. -/
def atan2 (y x : ℝ) : ℝ := Complex.arg ⟨x, y⟩

/-- `angle_between` from `simplify.rs`. -/
def angle_between (v1 v2 : Pt ℝ) : ℝ :=
  atan2 (v1.x * v2.y - v1.y * v2.x) (v1.x * v2.x + v1.y * v2.y)

/-- `reflect` from `simplify.rs`. -/
def reflect (lastCP : Option (Pt ℝ)) (cursor : Pt ℝ) : Pt ℝ :=
  match lastCP with
  | some p => ⟨2 * cursor.x - p.x, 2 * cursor.y - p.y⟩
  | none => cursor

/-- `approximate_unit_bezier` from `simplify.rs`: one cubic Bézier for the
elliptical-arc segment from angle `theta` to `theta + delta`. -/
def approximate_unit_bezier (cx cy rx ry phi theta delta : ℝ) : Command ℝ :=
  let cos_phi := Real.cos phi
  let sin_phi := Real.sin phi
  let alpha := Real.sin delta *
    ((4 / 3) * (1 - Real.cos (delta / 2)) / Real.sin delta)
  let cos_t := Real.cos theta
  let sin_t := Real.sin theta
  let cos_td := Real.cos (theta + delta)
  let sin_td := Real.sin (theta + delta)
  let p1 : Pt ℝ := ⟨cos_t, sin_t⟩
  let p2 : Pt ℝ := ⟨cos_td, sin_td⟩
  let cp1 : Pt ℝ := ⟨p1.x - alpha * p1.y, p1.y + alpha * p1.x⟩
  let cp2 : Pt ℝ := ⟨p2.x + alpha * p2.y, p2.y - alpha * p2.x⟩
  let tr : Pt ℝ → ℝ × ℝ := fun p =>
    (cos_phi * (p.x * rx) - sin_phi * (p.y * ry) + cx,
     sin_phi * (p.x * rx) + cos_phi * (p.y * ry) + cy)
  .cubic (tr cp1).1 (tr cp1).2 (tr cp2).1 (tr cp2).2 (tr p2).1 (tr p2).2

/-- The segment loop at the end of `arc_to_cubics` (`current_theta` starts
at `theta1` and advances by `delta` after each pushed Bézier). -/
def arcSegsGo (cx cy rx ry phi delta : ℝ) : ℕ → ℝ → List (Command ℝ)
  | 0, _ => []
  | n + 1, theta =>
    approximate_unit_bezier cx cy rx ry phi theta delta ::
      arcSegsGo cx cy rx ry phi delta n (theta + delta)

/-- `arc_to_cubics` from `simplify.rs`: endpoint-to-center conversion of an
elliptical arc into at most four cubic Bézier segments (or a single line
for a zero radius). -/
def arc_to_cubics (start : Pt ℝ) (rx₀ ry₀ x_axis_rot : ℝ)
    (large_arc sweep : Bool) (pend : Pt ℝ) : List (Command ℝ) :=
  let rx := |rx₀|
  let ry := |ry₀|
  if rx = 0 ∨ ry = 0 then [.line pend.x pend.y]
  else
    let phi := x_axis_rot * (Real.pi / 180)
    let cos_phi := Real.cos phi
    let sin_phi := Real.sin phi
    let dx := (start.x - pend.x) / 2
    let dy := (start.y - pend.y) / 2
    let x1p := cos_phi * dx + sin_phi * dy
    let y1p := -sin_phi * dx + cos_phi * dy
    let lambda := x1p * x1p / (rx * rx) + y1p * y1p / (ry * ry)
    let rx := if 1 < lambda then rx * Real.sqrt lambda else rx
    let ry := if 1 < lambda then ry * Real.sqrt lambda else ry
    let rx2 := rx * rx
    let ry2 := ry * ry
    let x1p2 := x1p * x1p
    let y1p2 := y1p * y1p
    let sign : ℝ := if large_arc = sweep then -1 else 1
    let numerator := max (rx2 * ry2 - rx2 * y1p2 - ry2 * x1p2) 0
    let denominator := rx2 * y1p2 + ry2 * x1p2
    let coef := sign * Real.sqrt (numerator / denominator)
    let cxp := coef * (rx * y1p / ry)
    let cyp := coef * -(ry * x1p / rx)
    let cx := cos_phi * cxp - sin_phi * cyp + (start.x + pend.x) / 2
    let cy := sin_phi * cxp + cos_phi * cyp + (start.y + pend.y) / 2
    let start_vec : Pt ℝ := ⟨(x1p - cxp) / rx, (y1p - cyp) / ry⟩
    let end_vec : Pt ℝ := ⟨(-x1p - cxp) / rx, (-y1p - cyp) / ry⟩
    let theta1 := angle_between ⟨1, 0⟩ start_vec
    let d_theta₀ := angle_between start_vec end_vec
    let d_theta₁ := if sweep = false ∧ 0 < d_theta₀ then d_theta₀ - 2 * Real.pi else d_theta₀
    let d_theta := if sweep = true ∧ d_theta₁ < 0 then d_theta₁ + 2 * Real.pi else d_theta₁
    let segments_count := (⌈|d_theta| / (Real.pi / 2)⌉).toNat
    let delta := d_theta / segments_count
    arcSegsGo cx cy rx ry phi delta segments_count theta1

/-- The body of the `for` loop in `simplify`'s `Arc` arm: push every Bézier,
updating cursor and last-control from each `Cubic`. -/
def arcStateFold (cursor : Pt ℝ) (lastCtrl : Option (Pt ℝ))
    (beziers : List (Command ℝ)) : Pt ℝ × Option (Pt ℝ) :=
  beziers.foldl
    (fun s b =>
      match b with
      | .cubic _ _ x2 y2 x y => (⟨x, y⟩, some ⟨x2, y2⟩)
      | _ => s)
    (cursor, lastCtrl)

/-- The command loop of `simplify` (`simplify.rs`), threading the cursor and
last control point. -/
def simplifyGo (cursor : Pt ℝ) (lastCtrl : Option (Pt ℝ)) :
    List (Command ℝ) → List (Command ℝ)
  | [] => []
  | cmd :: rest =>
    match cmd with
    | .move x y => .move x y :: simplifyGo ⟨x, y⟩ none rest
    | .line x y => .line x y :: simplifyGo ⟨x, y⟩ none rest
    | .horizontal x => .line x cursor.y :: simplifyGo ⟨x, cursor.y⟩ none rest
    | .vertical y => .line cursor.x y :: simplifyGo ⟨cursor.x, y⟩ none rest
    | .cubic x1 y1 x2 y2 x y =>
      .cubic x1 y1 x2 y2 x y :: simplifyGo ⟨x, y⟩ (some ⟨x2, y2⟩) rest
    | .smoothCubic x2 y2 x y =>
      let p1 := reflect lastCtrl cursor
      .cubic p1.x p1.y x2 y2 x y :: simplifyGo ⟨x, y⟩ (some ⟨x2, y2⟩) rest
    | .quadratic x1 y1 x y =>
      let cp1x := cursor.x + 2 / 3 * (x1 - cursor.x)
      let cp1y := cursor.y + 2 / 3 * (y1 - cursor.y)
      let cp2x := x + 2 / 3 * (x1 - x)
      let cp2y := y + 2 / 3 * (y1 - y)
      .cubic cp1x cp1y cp2x cp2y x y :: simplifyGo ⟨x, y⟩ (some ⟨x1, y1⟩) rest
    | .smoothQuadratic x y =>
      let q1 := reflect lastCtrl cursor
      let cp1x := cursor.x + 2 / 3 * (q1.x - cursor.x)
      let cp1y := cursor.y + 2 / 3 * (q1.y - cursor.y)
      let cp2x := x + 2 / 3 * (q1.x - x)
      let cp2y := y + 2 / 3 * (q1.y - y)
      .cubic cp1x cp1y cp2x cp2y x y :: simplifyGo ⟨x, y⟩ (some q1) rest
    | .arc rx ry rot laf swf x y =>
      let beziers := arc_to_cubics cursor rx ry rot laf swf ⟨x, y⟩
      let s := arcStateFold cursor lastCtrl beziers
      beziers ++ simplifyGo s.1 s.2 rest
    | .close => .close :: simplifyGo cursor none rest

/-- `simplify` from `simplify.rs`. -/
def simplify (commands : List (Command ℝ)) : List (Command ℝ) :=
  simplifyGo ⟨0, 0⟩ none commands

/-! ## Bounding box (`bbox.rs`) -/

/-- `BBox` from `bbox.rs`; the `f64::INFINITY` / `NEG_INFINITY` sentinels of
`BBox::new` are modelled by `⊤` / `⊥` in `EReal`. -/
structure BBox where
  min_x : EReal
  min_y : EReal
  max_x : EReal
  max_y : EReal

/-- `BBox::new`. -/
def BBox.new : BBox := ⟨⊤, ⊤, ⊥, ⊥⟩

/-- `BBox::add_point`. -/
def BBox.add_point (b : BBox) (x y : ℝ) : BBox :=
  let b := if (x : EReal) < b.min_x then { b with min_x := (x : EReal) } else b
  let b := if b.max_x < (x : EReal) then { b with max_x := (x : EReal) } else b
  let b := if (y : EReal) < b.min_y then { b with min_y := (y : EReal) } else b
  if b.max_y < (y : EReal) then { b with max_y := (y : EReal) } else b

/-- The `find_roots` closure in `BBox::add_bezier_extrema`. -/
def find_roots (a b c : ℝ) : List ℝ :=
  if |a| < 1e-9 then
    if 1e-9 < |b| then [-c / b] else []
  else
    let discriminant := b * b - 4 * a * c
    if 0 ≤ discriminant then
      [(-b + Real.sqrt discriminant) / (2 * a), (-b - Real.sqrt discriminant) / (2 * a)]
    else []

/-- `BBox::add_bezier_extrema`: fold the cubic's interior extrema (derivative
roots in the open interval `(0,1)`) into one axis of the box. -/
def BBox.add_bezier_extrema (bx : BBox) (p0 p1 p2 p3 : ℝ) (is_x : Bool) : BBox :=
  let a := 3 * (-p0 + 3 * p1 - 3 * p2 + p3)
  let b := 6 * (p0 - 2 * p1 + p2)
  let c := 3 * (p1 - p0)
  (find_roots a b c).foldl
    (fun bx t =>
      if 0 < t ∧ t < 1 then
        let mt := 1 - t
        let val := mt * mt * mt * p0 + 3 * mt * mt * t * p1 +
          3 * mt * t * t * p2 + t * t * t * p3
        if is_x then
          { bx with min_x := min bx.min_x (val : EReal),
                    max_x := max bx.max_x (val : EReal) }
        else
          { bx with min_y := min bx.min_y (val : EReal),
                    max_y := max bx.max_y (val : EReal) }
      else bx)
    bx

/-- `BBox::add_cubic`. -/
def BBox.add_cubic (bx : BBox) (start cp1 cp2 pend : Pt ℝ) : BBox :=
  let bx := bx.add_point start.x start.y
  let bx := bx.add_point pend.x pend.y
  let bx := bx.add_bezier_extrema start.x cp1.x cp2.x pend.x true
  bx.add_bezier_extrema start.y cp1.y cp2.y pend.y false

/-- One step of the command walk in `bbox` (`bbox.rs`): bounds plus cursor. -/
def bboxStep (s : BBox × Pt ℝ) (cmd : Command ℝ) : BBox × Pt ℝ :=
  match cmd with
  | .move x y => (s.1.add_point x y, ⟨x, y⟩)
  | .line x y => (s.1.add_point x y, ⟨x, y⟩)
  | .cubic x1 y1 x2 y2 x y =>
    (s.1.add_cubic s.2 ⟨x1, y1⟩ ⟨x2, y2⟩ ⟨x, y⟩, ⟨x, y⟩)
  | _ => s

/-- `bbox` from `bbox.rs`: `None` for an empty input, otherwise fold the
commands and report `None` exactly when the sentinel `min_x` survived. -/
def bbox (commands : List (Command ℝ)) : Option BBox :=
  if commands.isEmpty then none
  else
    let s := commands.foldl bboxStep (BBox.new, ⟨0, 0⟩)
    if s.1.min_x = ⊤ then none else some s.1

end

/-! ## Predicates and helper data used by the claim statements -/

/-- Is a command one of the canonical variants `{Move, Line, Cubic, Close}`? -/
def isCanonical {α : Type} : Command α → Bool
  | .move _ _ => true
  | .line _ _ => true
  | .cubic _ _ _ _ _ _ => true
  | .close => true
  | _ => false

/-- Is a command a `Cubic`? -/
def isCubic {α : Type} : Command α → Bool
  | .cubic _ _ _ _ _ _ => true
  | _ => false

/-- Is a command a `Line`? -/
def isLine {α : Type} : Command α → Bool
  | .line _ _ => true
  | _ => false

/-- The numeric fields of a command, in rendering order (arc flags excluded:
they render as `0`/`1` and are not free-form numbers). -/
def cmdNums : Command ℚ → List ℚ
  | .move x y => [x, y]
  | .line x y => [x, y]
  | .horizontal x => [x]
  | .vertical y => [y]
  | .cubic x1 y1 x2 y2 x y => [x1, y1, x2, y2, x, y]
  | .quadratic x1 y1 x y => [x1, y1, x, y]
  | .smoothCubic x2 y2 x y => [x2, y2, x, y]
  | .smoothQuadratic x y => [x, y]
  | .arc rx ry rot _ _ x y => [rx, ry, rot, x, y]
  | .close => []

/-- All numeric fields of a command list. -/
def pathNums (cmds : List (Command ℚ)) : List ℚ :=
  cmds.flatMap cmdNums

/-- The command letter a command renders with. -/
def cmdLetter : Command ℚ → Char
  | .move _ _ => 'M'
  | .line _ _ => 'L'
  | .horizontal _ => 'H'
  | .vertical _ => 'V'
  | .cubic _ _ _ _ _ _ => 'C'
  | .quadratic _ _ _ _ => 'Q'
  | .smoothCubic _ _ _ _ => 'S'
  | .smoothQuadratic _ _ => 'T'
  | .arc _ _ _ _ _ _ _ => 'A'
  | .close => 'Z'

/-- The numeric argument values of a command as they appear in its rendering
(arc flags as `0`/`1`). -/
def cmdArgVals : Command ℚ → List ℚ
  | .arc rx ry rot laf swf x y =>
    [rx, ry, rot, if laf then 1 else 0, if swf then 1 else 0, x, y]
  | c => cmdNums c

/-- The token sequence the rendering of a command list lexes to. -/
def pathToks (cmds : List (Command ℚ)) : List (Except LexerError Token) :=
  cmds.flatMap fun c =>
    .ok (.command (cmdLetter c)) :: (cmdArgVals c).map fun q => .ok (.number q)

/-- The Bézier "kappa" value the code's `alpha` formula produces for a 90°
arc segment: `(4/3)·(1 − cos 45°)`.  (Note: the conventional quarter-circle
kappa is `(4/3)·tan 22.5° ≈ 0.5523`; the code's formula omits the division
by `sin(δ/2)` and yields `≈ 0.3905`, but the bounding-box claims below hold
for either value.) -/
noncomputable def aK : ℝ := 4 / 3 * (1 - Real.sqrt 2 / 2)

/-- The ten decimal digit characters. -/
def digitChars : List Char := ['0', '1', '2', '3', '4', '5', '6', '7', '8', '9']

/-- The shape of a rendered number: an optional minus sign, a nonempty
block of digits, optionally followed by a point and more digits.  Every
`format_n` output has this shape, which is what makes the lexer read it
back as a single number token. -/
def NumShape (l : List Char) : Prop :=
  ∃ (sgn ds₁ tail : List Char),
    l = sgn ++ ds₁ ++ tail ∧
    (sgn = [] ∨ sgn = ['-']) ∧
    ds₁ ≠ [] ∧ (∀ c ∈ ds₁, c ∈ digitChars) ∧
    (tail = [] ∨ ∃ ds₂, tail = '.' :: ds₂ ∧ ∀ c ∈ ds₂, c ∈ digitChars)

/-! ## Parser loop lemmas -/

theorem innerRep_grows :
    ∀ (fuel : ℕ) (c : Char) (st : PState) (toks : List (Except LexerError Token))
      (acc : List (Command ℚ))
      (r : Char × PState × List (Except LexerError Token) × List (Command ℚ)),
      innerRep fuel c st toks acc = .ok r → acc.length ≤ r.2.2.2.length := by
  intro fuel
  induction fuel with
  | zero => intro c st toks acc r h; cases h
  | succ fuel ih =>
    intro c st toks acc r h
    match toks with
    | [] =>
      simp only [innerRep] at h
      cases h
      exact le_refl _
    | .ok (.command c₀) :: rest =>
      simp only [innerRep] at h
      cases h
      exact le_refl _
    | .error e :: rest =>
      simp only [innerRep] at h
      cases h
      exact le_refl _
    | .ok (.number n) :: rest =>
      simp only [innerRep] at h
      rcases hp : processCommand (if c.toLower = 'm' then (if c.isLower then 'l' else 'L') else c)
          st (.ok (.number n) :: rest) with e | v
      · rw [hp] at h; cases h
      · rw [hp] at h
        dsimp only at h
        have := ih _ _ _ _ _ h
        calc acc.length ≤ (acc ++ [v.1]).length := by simp
          _ ≤ r.2.2.2.length := this

theorem outerLoop_grows :
    ∀ (fuel : ℕ) (lastCmd : Option Char) (st : PState)
      (toks : List (Except LexerError Token)) (acc res : List (Command ℚ)),
      outerLoop fuel lastCmd st toks acc = .ok res →
      acc.length ≤ res.length ∧ (toks ≠ [] → acc.length < res.length) := by
  intro fuel
  induction fuel with
  | zero => intro _ _ _ _ _ h; cases h
  | succ fuel ih =>
    intro lastCmd st toks acc res h
    match toks with
    | [] =>
      simp only [outerLoop] at h
      cases h
      exact ⟨le_refl _, fun hne => absurd rfl hne⟩
    | t :: rest =>
      simp only [outerLoop] at h
      by_cases hcnd : lastCmd = none ∧ isNumTok t = true
      · rw [if_pos hcnd] at h; cases h
      · rw [if_neg hcnd] at h
        match t with
        | .error e => cases h
        | .ok (.number n) => cases h
        | .ok (.command c) =>
          dsimp only at h
          rcases hp : processCommand c st rest with e | v
          · rw [hp] at h; cases h
          · rw [hp] at h
            dsimp only at h
            rcases hi : innerRep (v.2.2.length + 1) c v.2.1 v.2.2 (acc ++ [v.1]) with e | w
            · rw [hi] at h; cases h
            · rw [hi] at h
              dsimp only at h
              have h1 := innerRep_grows _ _ _ _ _ _ hi
              have h2 := (ih _ _ _ _ _ h).1
              have h3 : acc.length < (acc ++ [v.1]).length := by simp
              exact ⟨le_of_lt (lt_of_lt_of_le h3 (le_trans h1 h2)),
                fun _ => lt_of_lt_of_le h3 (le_trans h1 h2)⟩

/-- C9.  A successful parse never yields an empty command list: the parser
errors out on an empty token stream, and the first loop iteration either
fails or appends at least one command.  Consequently the `len() - 1`
computed by the `Display` implementation for `Path` never underflows on a
parsed path (`1 ≤ cmds.length`). -/
theorem c9_parse_nonempty (s : String) (cmds : List (Command ℚ))
    (h : parse s = .ok cmds) : cmds ≠ [] ∧ 1 ≤ cmds.length := by
  unfold parse at h
  by_cases he : (lexStr s).isEmpty
  · rw [if_pos he] at h
    cases h
  · rw [if_neg he] at h
    have hlt := (outerLoop_grows _ _ _ _ _ _ h).2 (by
      intro hnil
      rw [hnil] at he
      exact he rfl)
    simp only [List.length_nil] at hlt
    exact ⟨List.ne_nil_of_length_pos hlt, hlt⟩

unseal Rat.add Rat.mul Rat.sub Rat.inv in
/-- C9 witness: a concrete successful parse, whose output is non-empty. -/
theorem c9_parse_nonempty_witness :
    [Command.move (0 : ℚ) 0] ≠ [] ∧ 1 ≤ [Command.move (0 : ℚ) 0].length :=
  c9_parse_nonempty "M 0 0" [Command.move 0 0] (by decide)

/-- C7.  Error behaviour of the parser: an input lexing to no tokens fails
with `EndOfStream`; an input whose first token is a number fails with
`NoStartingCommand`; and the six spec inputs `""`, `"  "`, `"M"`, `"5"`,
`"MM 0 5 L 6 9"`, `"M 0,0 foo"` all fail to parse, with the exact errors
recorded here. -/
theorem c7_parse_errors :
    (∀ s : String, lexStr s = [] → parse s = .error .endOfStream) ∧
    (∀ (s : String) (n : ℚ) (rest : List (Except LexerError Token)),
      lexStr s = .ok (.number n) :: rest → parse s = .error .noStartingCommand) ∧
    parse "" = .error .endOfStream ∧
    parse "  " = .error .endOfStream ∧
    parse "M" = .error .endOfStream ∧
    parse "5" = .error .noStartingCommand ∧
    parse "MM 0 5 L 6 9" = .error (.unexpectedToken (.command 'M')) ∧
    parse "M 0,0 foo" = .error (.lexerErr (.invalidCommand 'f')) := by
  refine ⟨?_, ?_, ?_, ?_, ?_, ?_, ?_, ?_⟩
  · intro s hs
    unfold parse
    rw [hs]
    rfl
  · intro s n rest hs
    unfold parse
    rw [hs]
    simp [outerLoop, isNumTok]
  · decide
  · decide
  · decide
  · decide
  · decide
  · decide

unseal Rat.add Rat.mul Rat.sub Rat.inv in
/-- C7 witness: the general error clauses instantiated at concrete inputs. -/
theorem c7_parse_errors_witness :
    parse "" = .error .endOfStream ∧ parse "5" = .error .noStartingCommand :=
  ⟨c7_parse_errors.1 "" (by decide),
    c7_parse_errors.2.1 "5" 5 [] (by decide)⟩

/-! ## Normalizer lemmas -/

theorem approx_isCubic (cx cy rx ry phi theta delta : ℝ) :
    isCubic (approximate_unit_bezier cx cy rx ry phi theta delta) = true := rfl

theorem arcSegsGo_mem {cx cy rx ry phi delta : ℝ} :
    ∀ (n : ℕ) (theta : ℝ) (c : Command ℝ),
      c ∈ arcSegsGo cx cy rx ry phi delta n theta → isCubic c = true := by
  intro n
  induction n with
  | zero => intro theta c h; simp [arcSegsGo] at h
  | succ n ih =>
    intro theta c h
    simp only [arcSegsGo, List.mem_cons] at h
    rcases h with h | h
    · subst h; exact approx_isCubic ..
    · exact ih _ _ h

theorem arc_to_cubics_mem {start : Pt ℝ} {rx ry rot : ℝ} {laf swf : Bool}
    {pend : Pt ℝ} {c : Command ℝ} (h : c ∈ arc_to_cubics start rx ry rot laf swf pend) :
    isLine c = true ∨ isCubic c = true := by
  rw [arc_to_cubics] at h
  by_cases hz : |rx| = 0 ∨ |ry| = 0
  · rw [if_pos hz] at h
    simp only [List.mem_singleton] at h
    subst h
    exact Or.inl rfl
  · rw [if_neg hz] at h
    exact Or.inr (arcSegsGo_mem _ _ _ h)

theorem simplifyGo_mem_canonical :
    ∀ (l : List (Command ℝ)) (cur : Pt ℝ) (lc : Option (Pt ℝ)) (c : Command ℝ),
      c ∈ simplifyGo cur lc l → isCanonical c = true := by
  intro l
  induction l with
  | nil => intro cur lc c h; simp [simplifyGo] at h
  | cons cmd rest ih =>
    intro cur lc c h
    cases cmd with
    | arc rx ry rot laf swf x y =>
      simp only [simplifyGo, List.mem_append] at h
      rcases h with h | h
      · rcases arc_to_cubics_mem h with hl | hc
        · cases c <;> simp_all [isLine, isCanonical]
        · cases c <;> simp_all [isCubic, isCanonical]
      · exact ih _ _ _ h
    | move x y =>
      simp only [simplifyGo, List.mem_cons] at h
      rcases h with h | h
      · subst h; rfl
      · exact ih _ _ _ h
    | line x y =>
      simp only [simplifyGo, List.mem_cons] at h
      rcases h with h | h
      · subst h; rfl
      · exact ih _ _ _ h
    | horizontal x =>
      simp only [simplifyGo, List.mem_cons] at h
      rcases h with h | h
      · subst h; rfl
      · exact ih _ _ _ h
    | vertical y =>
      simp only [simplifyGo, List.mem_cons] at h
      rcases h with h | h
      · subst h; rfl
      · exact ih _ _ _ h
    | cubic x1 y1 x2 y2 x y =>
      simp only [simplifyGo, List.mem_cons] at h
      rcases h with h | h
      · subst h; rfl
      · exact ih _ _ _ h
    | smoothCubic x2 y2 x y =>
      simp only [simplifyGo, List.mem_cons] at h
      rcases h with h | h
      · subst h; rfl
      · exact ih _ _ _ h
    | quadratic x1 y1 x y =>
      simp only [simplifyGo, List.mem_cons] at h
      rcases h with h | h
      · subst h; rfl
      · exact ih _ _ _ h
    | smoothQuadratic x y =>
      simp only [simplifyGo, List.mem_cons] at h
      rcases h with h | h
      · subst h; rfl
      · exact ih _ _ _ h
    | close =>
      simp only [simplifyGo, List.mem_cons] at h
      rcases h with h | h
      · subst h; rfl
      · exact ih _ _ _ h

/-- On a list of canonical commands, the `simplify` loop is the identity,
whatever its starting state: each canonical arm re-emits the command
unchanged. -/
theorem simplifyGo_canonical_id :
    ∀ (l : List (Command ℝ)), (∀ c ∈ l, isCanonical c = true) →
      ∀ (cur : Pt ℝ) (lc : Option (Pt ℝ)), simplifyGo cur lc l = l := by
  intro l
  induction l with
  | nil => intro _ cur lc; rfl
  | cons cmd rest ih =>
    intro hcan cur lc
    have hrest : ∀ c ∈ rest, isCanonical c = true := by
      intro c hc; exact hcan c (List.mem_cons_of_mem _ hc)
    have hhead := hcan cmd (List.mem_cons_self _ _)
    cases cmd with
    | move x y => simp [simplifyGo, ih hrest]
    | line x y => simp [simplifyGo, ih hrest]
    | cubic x1 y1 x2 y2 x y => simp [simplifyGo, ih hrest]
    | close => simp [simplifyGo, ih hrest]
    | horizontal x => simp [isCanonical] at hhead
    | vertical y => simp [isCanonical] at hhead
    | quadratic x1 y1 x y => simp [isCanonical] at hhead
    | smoothCubic x2 y2 x y => simp [isCanonical] at hhead
    | smoothQuadratic x y => simp [isCanonical] at hhead
    | arc rx ry rot laf swf x y => simp [isCanonical] at hhead

/-- C3.  The normalizer only ever emits `Move`, `Line`, `Cubic` and `Close`:
for every absolute command sequence `v`, every command of `simplify v` is
canonical — no `Horizontal`, `Vertical`, `Quadratic`, `SmoothCubic`,
`SmoothQuadratic` or `Arc` variant appears in the normalized sequence. -/
theorem c3_simplify_canonical (v : List (Command ℝ)) :
    ∀ c ∈ simplify v, isCanonical c = true := by
  intro c hc
  exact simplifyGo_mem_canonical v _ _ c hc

/-- Concrete instance of the canonical-output property: normalizing
`[Horizontal 5]` produces the command `Line 5 0`, which is canonical. -/
theorem c3_simplify_canonical_witness :
    isCanonical (Command.line (5 : ℝ) 0) = true :=
  c3_simplify_canonical [Command.horizontal 5] (Command.line 5 0)
    (by simp [simplify, simplifyGo])

/-- C4 (amended).  The normalizer converts `Horizontal{x}` to `Line{x, cy}`
and `Vertical{y}` to `Line{cx, y}` where `(cx, cy)` is its tracked pen
position — but `Close` leaves that pen position unchanged (the normalizer
does not track subpath starts), so after a `Close` the unchanged axis comes
from the endpoint of the command before the `Close`, not from the subpath's
start point. -/
theorem c4_hv_conversion (cur : Pt ℝ) (lc : Option (Pt ℝ)) (x y : ℝ)
    (rest : List (Command ℝ)) :
    simplifyGo cur lc (.horizontal x :: rest) =
      .line x cur.y :: simplifyGo ⟨x, cur.y⟩ none rest ∧
    simplifyGo cur lc (.vertical y :: rest) =
      .line cur.x y :: simplifyGo ⟨cur.x, y⟩ none rest ∧
    simplifyGo cur lc (.close :: rest) = .close :: simplifyGo cur none rest := by
  refine ⟨rfl, rfl, rfl⟩

/-- C4 counterexample.  In `M 1 2 L 5 6 Z H 9` the command before the
`Horizontal` is a `Close`; the claim predicts `Line{9, 2}` (subpath-start
`y`), but `simplify` emits `Line{9, 6}` — the pen used for the unchanged
axis is the endpoint of the `Line` before the `Close`, because the `Close`
arm of `simplify` does not reset the cursor. -/
theorem c4_counterexample :
    simplify [.move 1 2, .line 5 6, .close, .horizontal 9] =
      [.move 1 2, .line 5 6, .close, .line 9 6] ∧
    Command.line (9 : ℝ) 6 ≠ Command.line 9 2 := by
  constructor
  · rfl
  · intro h
    have : (6 : ℝ) = 2 := by injection h
    norm_num at this

/-- C8.  The normalizer is idempotent: a second `simplify` pass maps every
output variant (`Move`, `Line`, `Cubic`, `Close`) to itself, so
`simplify (simplify v) = simplify v` for every command sequence `v`. -/
theorem c8_simplify_idempotent (v : List (Command ℝ)) :
    simplify (simplify v) = simplify v := by
  unfold simplify
  exact simplifyGo_canonical_id _ (fun c hc => simplifyGo_mem_canonical v _ _ c hc) _ _

/-- C6 (amended).  `arc_to_cubics` degrades an arc to a single `Line` to its
end point exactly when `rx` or `ry` is zero (`rx.abs() == 0.0` after taking
absolute values) — not for merely small nonzero radii, which instead get
scaled up to span the chord and still produce cubic segments (see the
counterexample). -/
theorem c6_zero_radius_line (start : Pt ℝ) (rx ry rot : ℝ) (laf swf : Bool)
    (pend : Pt ℝ) (h : rx = 0 ∨ ry = 0) :
    arc_to_cubics start rx ry rot laf swf pend = [.line pend.x pend.y] := by
  rw [arc_to_cubics, if_pos]
  rcases h with h | h
  · exact Or.inl (by rw [h, abs_zero])
  · exact Or.inr (by rw [h, abs_zero])

/-- C6 witness: a concrete zero-radius arc degrades to the line to its end
point. -/
theorem c6_zero_radius_line_witness :
    arc_to_cubics ⟨0, 0⟩ 0 1 0 false true ⟨3, 4⟩ = [.line 3 4] :=
  c6_zero_radius_line ⟨0, 0⟩ 0 1 0 false true ⟨3, 4⟩ (Or.inl rfl)

/-! ## Bounding-box lemmas -/

/-- `BBox::add_point`, written as four independent field updates. -/
theorem add_point_spec (b : BBox) (x y : ℝ) :
    b.add_point x y =
      ⟨if (x : EReal) < b.min_x then (x : EReal) else b.min_x,
       if (y : EReal) < b.min_y then (y : EReal) else b.min_y,
       if b.max_x < (x : EReal) then (x : EReal) else b.max_x,
       if b.max_y < (y : EReal) then (y : EReal) else b.max_y⟩ := by
  unfold BBox.add_point
  dsimp only
  split_ifs <;> rfl

theorem add_point_ordered (b : BBox) (x y : ℝ) :
    (b.add_point x y).min_x ≤ (b.add_point x y).max_x ∧
    (b.add_point x y).min_y ≤ (b.add_point x y).max_y ∧
    (b.add_point x y).min_x ≠ ⊤ := by
  rw [add_point_spec]
  refine ⟨?_, ?_, ?_⟩
  · dsimp only
    split_ifs with h1 h2 h2
    · exact le_refl _
    · exact not_lt.mp h2
    · exact not_lt.mp h1
    · exact le_trans (not_lt.mp h1) (not_lt.mp h2)
  · dsimp only
    split_ifs with h1 h2 h2
    · exact le_refl _
    · exact not_lt.mp h2
    · exact not_lt.mp h1
    · exact le_trans (not_lt.mp h1) (not_lt.mp h2)
  · dsimp only
    split_ifs with h1
    · exact EReal.coe_ne_top x
    · exact ne_top_of_le_ne_top (EReal.coe_ne_top x) (not_lt.mp h1)

theorem add_point_no_top (b : BBox) (x y : ℝ) : (b.add_point x y).min_x ≠ ⊤ :=
  (add_point_ordered b x y).2.2

theorem add_ext_fold_preserves (p0 p1 p2 p3 : ℝ) (is_x : Bool) :
    ∀ (b : BBox),
      (b.min_x ≤ b.max_x ∧ b.min_y ≤ b.max_y ∧ b.min_x ≠ ⊤) →
      ((b.add_bezier_extrema p0 p1 p2 p3 is_x).min_x ≤
          (b.add_bezier_extrema p0 p1 p2 p3 is_x).max_x ∧
        (b.add_bezier_extrema p0 p1 p2 p3 is_x).min_y ≤
          (b.add_bezier_extrema p0 p1 p2 p3 is_x).max_y ∧
        (b.add_bezier_extrema p0 p1 p2 p3 is_x).min_x ≠ ⊤) := by
  intro b hb
  unfold BBox.add_bezier_extrema
  dsimp only
  generalize find_roots (3 * (-p0 + 3 * p1 - 3 * p2 + p3))
    (6 * (p0 - 2 * p1 + p2)) (3 * (p1 - p0)) = roots
  induction roots generalizing b with
  | nil => simpa using hb
  | cons t ts ih =>
    simp only [List.foldl_cons]
    apply ih
    split_ifs with h1 h2
    · obtain ⟨hxy, hy, htop⟩ := hb
      refine ⟨?_, hy, ?_⟩
      · exact le_trans (min_le_left _ _) (le_trans hxy (le_max_left _ _))
      · exact ne_top_of_le_ne_top (EReal.coe_ne_top _) (min_le_right _ _)
    · obtain ⟨hxy, hy, htop⟩ := hb
      refine ⟨hxy, ?_, htop⟩
      exact le_trans (min_le_left _ _) (le_trans hy (le_max_left _ _))
    · exact hb

theorem add_cubic_ordered (b : BBox) (s c1 c2 e : Pt ℝ) :
    (b.add_cubic s c1 c2 e).min_x ≤ (b.add_cubic s c1 c2 e).max_x ∧
    (b.add_cubic s c1 c2 e).min_y ≤ (b.add_cubic s c1 c2 e).max_y ∧
    (b.add_cubic s c1 c2 e).min_x ≠ ⊤ := by
  unfold BBox.add_cubic
  apply add_ext_fold_preserves
  apply add_ext_fold_preserves
  exact add_point_ordered _ _ _

/-- Fold invariant for `bbox`: either the state is still the untouched
sentinel box, or its bounds are ordered per axis and `min_x` is finite. -/
theorem bbox_fold_inv (l : List (Command ℝ)) :
    ∀ (s : BBox × Pt ℝ),
      ((s.1.min_x = ⊤ ∧ s.1.min_y = ⊤ ∧ s.1.max_x = ⊥ ∧ s.1.max_y = ⊥) ∨
        (s.1.min_x ≤ s.1.max_x ∧ s.1.min_y ≤ s.1.max_y ∧ s.1.min_x ≠ ⊤)) →
      (((l.foldl bboxStep s).1.min_x = ⊤ ∧ (l.foldl bboxStep s).1.min_y = ⊤ ∧
          (l.foldl bboxStep s).1.max_x = ⊥ ∧ (l.foldl bboxStep s).1.max_y = ⊥) ∨
        ((l.foldl bboxStep s).1.min_x ≤ (l.foldl bboxStep s).1.max_x ∧
          (l.foldl bboxStep s).1.min_y ≤ (l.foldl bboxStep s).1.max_y ∧
          (l.foldl bboxStep s).1.min_x ≠ ⊤)) := by
  induction l with
  | nil => intro s hs; exact hs
  | cons cmd rest ih =>
    intro s hs
    simp only [List.foldl_cons]
    apply ih
    cases cmd with
    | move x y => exact Or.inr (add_point_ordered _ _ _)
    | line x y => exact Or.inr (add_point_ordered _ _ _)
    | cubic x1 y1 x2 y2 x y => exact Or.inr (add_cubic_ordered _ _ _ _ _)
    | horizontal x => exact hs
    | vertical y => exact hs
    | quadratic x1 y1 x y => exact hs
    | smoothCubic x2 y2 x y => exact hs
    | smoothQuadratic x y => exact hs
    | arc rx ry rot laf swf x y => exact hs
    | close => exact hs

/-- C10.  Whenever the bounding-box computation returns a box, its bounds
are ordered: `min_x ≤ max_x` and `min_y ≤ max_y`. -/
theorem c10_bbox_ordered (cmds : List (Command ℝ)) (box : BBox)
    (h : bbox cmds = some box) :
    box.min_x ≤ box.max_x ∧ box.min_y ≤ box.max_y := by
  unfold bbox at h
  by_cases he : cmds.isEmpty
  · rw [if_pos he] at h
    cases h
  · rw [if_neg he] at h
    dsimp only at h
    by_cases htop : (List.foldl bboxStep (BBox.new, ⟨0, 0⟩) cmds).1.min_x = ⊤
    · rw [if_pos htop] at h
      cases h
    · rw [if_neg htop] at h
      have hbox : (List.foldl bboxStep (BBox.new, ⟨0, 0⟩) cmds).1 = box := by
        injection h
      rcases bbox_fold_inv cmds (BBox.new, ⟨0, 0⟩) (Or.inl ⟨rfl, rfl, rfl, rfl⟩) with
        hsent | hord
      · exact absurd hsent.1 htop
      · rw [hbox] at hord
        exact ⟨hord.1, hord.2.1⟩

/-- Evaluation of `add_point` on the fresh sentinel box. -/
theorem add_point_new (x y : ℝ) :
    BBox.new.add_point x y =
      ⟨((x : ℝ) : EReal), ((y : ℝ) : EReal), ((x : ℝ) : EReal), ((y : ℝ) : EReal)⟩ := by
  rw [add_point_spec]
  simp only [BBox.new]
  rw [if_pos (EReal.coe_lt_top x), if_pos (EReal.coe_lt_top y),
    if_pos (EReal.bot_lt_coe x), if_pos (EReal.bot_lt_coe y)]

/-- C10 witness: a concrete one-point path yields a box with ordered
bounds. -/
theorem c10_bbox_ordered_witness :
    ∃ box : BBox, bbox [.move 1 2] = some box ∧
      (box.min_x ≤ box.max_x ∧ box.min_y ≤ box.max_y) := by
  have h : bbox [.move 1 2] = some ⟨((1 : ℝ) : EReal), ((2 : ℝ) : EReal),
      ((1 : ℝ) : EReal), ((2 : ℝ) : EReal)⟩ := by
    unfold bbox
    rw [if_neg (by simp)]
    dsimp only [List.foldl, bboxStep]
    rw [add_point_new]
    exact if_neg (EReal.coe_ne_top 1)
  exact ⟨_, h, c10_bbox_ordered _ _ h⟩

theorem bbox_fold_no_top (l : List (Command ℝ)) :
    ∀ s : BBox × Pt ℝ, s.1.min_x ≠ ⊤ →
      (l.foldl bboxStep s).1.min_x ≠ ⊤ := by
  induction l with
  | nil => intro s hs; exact hs
  | cons cmd rest ih =>
    intro s hs
    simp only [List.foldl_cons]
    apply ih
    cases cmd with
    | move x y => exact add_point_no_top _ _ _
    | line x y => exact add_point_no_top _ _ _
    | cubic x1 y1 x2 y2 x y => exact (add_cubic_ordered _ _ _ _ _).2.2
    | horizontal x => exact hs
    | vertical y => exact hs
    | quadratic x1 y1 x y => exact hs
    | smoothCubic x2 y2 x y => exact hs
    | smoothQuadratic x y => exact hs
    | arc rx ry rot laf swf x y => exact hs
    | close => exact hs

theorem bbox_fold_close_id (l : List (Command ℝ)) :
    ∀ s : BBox × Pt ℝ, (∀ c ∈ l, c = Command.close) →
      l.foldl bboxStep s = s := by
  induction l with
  | nil => intro s _; rfl
  | cons cmd rest ih =>
    intro s hl
    have hc := hl cmd (List.mem_cons_self _ _)
    subst hc
    simp only [List.foldl_cons]
    exact ih s fun c hc => hl c (List.mem_cons_of_mem _ hc)

theorem bbox_fold_hit (l : List (Command ℝ)) :
    ∀ s : BBox × Pt ℝ,
      (∃ c ∈ l, isCanonical c = true ∧ c ≠ Command.close) →
      (l.foldl bboxStep s).1.min_x ≠ ⊤ := by
  induction l with
  | nil => intro s h; simp at h
  | cons cmd rest ih =>
    intro s h
    simp only [List.foldl_cons]
    rcases h with ⟨c, hc, hcan, hne⟩
    rcases List.mem_cons.mp hc with rfl | hmem
    · cases c with
      | move x y => exact bbox_fold_no_top rest _ (add_point_no_top _ _ _)
      | line x y => exact bbox_fold_no_top rest _ (add_point_no_top _ _ _)
      | cubic x1 y1 x2 y2 x y =>
        exact bbox_fold_no_top rest _ (add_cubic_ordered _ _ _ _ _).2.2
      | close => exact absurd rfl hne
      | horizontal x => simp [isCanonical] at hcan
      | vertical y => simp [isCanonical] at hcan
      | quadratic x1 y1 x y => simp [isCanonical] at hcan
      | smoothCubic x2 y2 x y => simp [isCanonical] at hcan
      | smoothQuadratic x y => simp [isCanonical] at hcan
      | arc rx ry rot laf swf x y => simp [isCanonical] at hcan
    · exact ih _ ⟨c, hmem, hcan, hne⟩

/-- C5 (amended).  On a canonical command sequence, the bounding-box
computation returns a box iff the sequence contains at least one
point-producing command (`Move`, `Line` or `Cubic`); it returns no box when
the sequence is empty — but also when it is non-empty and consists solely
of `Close` commands, which contribute no points. -/
theorem c5_bbox_some_iff (cmds : List (Command ℝ))
    (hcanon : ∀ c ∈ cmds, isCanonical c = true) :
    (bbox cmds).isSome = true ↔ ∃ c ∈ cmds, c ≠ Command.close := by
  constructor
  · intro hsome
    by_contra hno
    push_neg at hno
    unfold bbox at hsome
    rcases List.eq_nil_or_concat cmds with rfl | ⟨_, _, rfl⟩
    · simp at hsome
    · rw [if_neg (by simp)] at hsome
      dsimp only at hsome
      rw [bbox_fold_close_id _ _ hno] at hsome
      simp [BBox.new] at hsome
  · rintro ⟨c, hc, hne⟩
    unfold bbox
    rw [if_neg (by rcases cmds with _ | _ <;> simp_all)]
    dsimp only
    rw [if_neg (bbox_fold_hit cmds _ ⟨c, hc, hcanon c hc, hne⟩)]
    rfl

/-- C5 counterexample.  `[Close]` is a non-empty canonical command sequence,
yet the bounding-box computation returns no box: `bbox` is `None` not
exactly on emptiness, but whenever no point was ever seen. -/
theorem c5_counterexample :
    bbox [Command.close] = none ∧ ([Command.close] : List (Command ℝ)) ≠ [] := by
  constructor
  · unfold bbox
    rw [if_neg (by simp)]
    dsimp only [List.foldl, bboxStep]
    simp [BBox.new]
  · simp

/-- C5 witness: a concrete canonical path with a `Move` gets a box. -/
theorem c5_bbox_some_iff_witness :
    (∀ c ∈ [Command.move (1 : ℝ) 2], isCanonical c = true) ∧
      ((bbox [Command.move (1 : ℝ) 2]).isSome = true ↔
        ∃ c ∈ [Command.move (1 : ℝ) 2], c ≠ Command.close) :=
  ⟨by intro c hc; rcases List.mem_singleton.mp hc with rfl; rfl,
    c5_bbox_some_iff _ (by intro c hc; rcases List.mem_singleton.mp hc with rfl; rfl)⟩

/-! ## Lexer carving lemmas and the render round-trip (claim C2) -/

theorem readNumGo_snd_le :
    ∀ (l : List Char) (acc : List Char) (d e : Bool),
      (readNumGo acc d e l).2.length ≤ l.length := by
  intro l
  induction l with
  | nil => intro acc d e; simp [readNumGo]
  | cons c rest ih =>
    intro acc d e
    rw [readNumGo]
    split_ifs <;>
      first
        | exact le_trans (ih _ _ _) (Nat.le_succ _)
        | simp

theorem readNum_snd_le (c : Char) (rest : List Char)
    (h : c.isDigit = true ∨ c = '-' ∨ c = '+' ∨ c = '.') :
    (readNum (c :: rest)).2.length ≤ rest.length := by
  unfold readNum
  rw [readNumGo]
  rcases h with h | h | h | h
  · have h1 : ¬(c = '-' ∨ c = '+') := by
      rintro (rfl | rfl) <;> simp at h
    rw [if_neg h1, if_pos h]
    exact readNumGo_snd_le _ _ _ _
  · subst h
    rw [if_pos (Or.inl rfl), if_pos (Or.inl rfl)]
    exact readNumGo_snd_le _ _ _ _
  · subst h
    rw [if_pos (Or.inr rfl), if_pos (Or.inl rfl)]
    exact readNumGo_snd_le _ _ _ _
  · subst h
    rw [if_neg (by simp), if_neg (by simp),
      if_pos (by simp)]
    exact readNumGo_snd_le _ _ _ _

theorem lexGo_fuel :
    ∀ (f₁ : ℕ) (cs : List Char) (f₂ : ℕ), cs.length < f₁ → cs.length < f₂ →
      lexGo f₁ cs = lexGo f₂ cs := by
  intro f₁
  induction f₁ with
  | zero => intro cs f₂ h1; exact absurd h1 (Nat.not_lt_zero _)
  | succ f₁ ih =>
    intro cs f₂ h1 h2
    rcases f₂ with _ | f₂
    · exact absurd h2 (Nat.not_lt_zero _)
    · rw [lexGo, lexGo]
      rcases hskip : skipWs cs with _ | ⟨c, rest⟩
      · rfl
      · dsimp only
        have hlen : rest.length < cs.length := by
          have hle := (List.dropWhile_sublist (l := cs) isSep).length_le
          rw [skipWs] at hskip
          rw [hskip] at hle
          simpa using hle
        by_cases ha : c.isAlpha
        · rw [if_pos ha, if_pos ha,
            ih rest f₂ (lt_of_lt_of_le hlen (Nat.le_of_lt_succ h1))
              (lt_of_lt_of_le hlen (Nat.le_of_lt_succ h2))]
        · rw [if_neg ha, if_neg ha]
          by_cases hn : c.isDigit = true ∨ c = '-' ∨ c = '+' ∨ c = '.'
          · rw [if_pos hn, if_pos hn]
            have hrn : (readNum (c :: rest)).2.length < cs.length :=
              lt_of_le_of_lt (readNum_snd_le c rest hn) hlen
            rw [ih _ f₂ (lt_of_lt_of_le hrn (Nat.le_of_lt_succ h1))
              (lt_of_lt_of_le hrn (Nat.le_of_lt_succ h2))]
          · rw [if_neg hn, if_neg hn,
              ih rest f₂ (lt_of_lt_of_le hlen (Nat.le_of_lt_succ h1))
                (lt_of_lt_of_le hlen (Nat.le_of_lt_succ h2))]

theorem digit_facts (c : Char) (h : c ∈ digitChars) :
    c.isDigit = true ∧ isSep c = false ∧ c.isAlpha = false ∧
      c ≠ '-' ∧ c ≠ '+' ∧ c ≠ '.' ∧ c ≠ 'e' ∧ c ≠ 'E' := by
  fin_cases h <;> exact ⟨rfl, rfl, rfl, by decide, by decide, by decide, by decide, by decide⟩

theorem lexAll_sep (c : Char) (cs : List Char) (h : isSep c = true) :
    lexAll (c :: cs) = lexAll cs := by
  simp only [lexAll, List.length_cons]
  rw [lexGo, lexGo]
  have hskip : skipWs (c :: cs) = skipWs cs := List.dropWhile_cons_of_pos h
  rw [hskip]
  rcases hs : skipWs cs with _ | ⟨d, rest⟩
  · rfl
  · dsimp only
    have hlen : rest.length < cs.length := by
      have hle := (List.dropWhile_sublist (l := cs) isSep).length_le
      rw [skipWs] at hs
      rw [hs] at hle
      simpa using hle
    by_cases ha : d.isAlpha
    · rw [if_pos ha, if_pos ha,
        lexGo_fuel (cs.length + 1) rest cs.length (by omega) hlen]
    · rw [if_neg ha, if_neg ha]
      by_cases hn : d.isDigit = true ∨ d = '-' ∨ d = '+' ∨ d = '.'
      · have hrn : (readNum (d :: rest)).2.length < cs.length :=
          lt_of_le_of_lt (readNum_snd_le d rest hn) hlen
        rw [if_pos hn, if_pos hn,
          lexGo_fuel (cs.length + 1) (readNum (d :: rest)).2 cs.length (by omega) hrn]
      · rw [if_neg hn, if_neg hn,
          lexGo_fuel (cs.length + 1) rest cs.length (by omega) hlen]

theorem lexAll_letter (c : Char) (cs : List Char) (hsep : isSep c = false)
    (ha : c.isAlpha = true) (hv : isValidCommand c = true) :
    lexAll (c :: cs) = .ok (.command c) :: lexAll cs := by
  simp only [lexAll, List.length_cons]
  rw [lexGo]
  have hskip : skipWs (c :: cs) = c :: cs :=
    List.dropWhile_cons_of_neg (by simp [hsep])
  rw [hskip]
  dsimp only
  rw [if_pos ha, if_pos hv]

theorem readNumGo_digits :
    ∀ (ds : List Char) (acc : List Char) (d e : Bool) (rest : List Char),
      (∀ c ∈ ds, c ∈ digitChars) →
      readNumGo acc d e (ds ++ rest) = readNumGo (ds.reverse ++ acc) d e rest := by
  intro ds
  induction ds with
  | nil => intro acc d e rest _; rfl
  | cons c ds ih =>
    intro acc d e rest hds
    have hc := digit_facts c (hds c (List.mem_cons_self _ _))
    rw [List.cons_append, readNumGo]
    rw [if_neg (by rintro (rfl | rfl) <;> simp_all), if_pos hc.1]
    rw [ih _ _ _ _ (fun x hx => hds x (List.mem_cons_of_mem _ hx))]
    simp

theorem readNumGo_stop (acc : List Char) (d e : Bool) (rest : List Char)
    (h : rest = [] ∨ (∃ rest', rest = ' ' :: rest') ∨ (∃ rest', rest = ',' :: rest')) :
    readNumGo acc d e rest = (acc.reverse, rest) := by
  rcases h with rfl | ⟨rest', rfl⟩ | ⟨rest', rfl⟩
  · rfl
  · rw [readNumGo]
    rw [if_neg (by rintro (h | h) <;> cases h), if_neg (by decide),
      if_neg (by rintro ⟨h, -⟩; cases h), if_neg (by rintro ⟨h | h, -⟩ <;> cases h)]
  · rw [readNumGo]
    rw [if_neg (by rintro (h | h) <;> cases h), if_neg (by decide),
      if_neg (by rintro ⟨h, -⟩; cases h), if_neg (by rintro ⟨h | h, -⟩ <;> cases h)]

theorem readNum_shape (l : List Char) (hl : NumShape l) (rest : List Char)
    (hrest : rest = [] ∨ (∃ r, rest = ' ' :: r) ∨ (∃ r, rest = ',' :: r)) :
    readNum (l ++ rest) = (l, rest) := by
  obtain ⟨sgn, ds₁, tail, heq, hsgn, hds1ne, hds1, htail⟩ := hl
  subst heq
  unfold readNum
  rcases hsgn with rfl | rfl
  · simp only [List.nil_append, List.append_assoc]
    rw [readNumGo_digits ds₁ [] false false (tail ++ rest) hds1]
    rcases htail with rfl | ⟨ds₂, rfl, hds2⟩
    · rw [List.nil_append, readNumGo_stop _ _ _ _ hrest]
      simp
    · rw [List.cons_append, readNumGo]
      rw [if_neg (by rintro (h | h) <;> cases h), if_neg (by decide),
        if_pos ⟨rfl, rfl, rfl⟩]
      rw [readNumGo_digits ds₂ _ true false rest hds2]
      rw [readNumGo_stop _ _ _ _ hrest]
      simp
  · simp only [List.cons_append, List.append_assoc, List.singleton_append]
    rw [readNumGo]
    rw [if_pos (Or.inl rfl), if_pos (Or.inl rfl)]
    simp only [List.nil_append]
    rw [readNumGo_digits ds₁ ['-'] false false (tail ++ rest) hds1]
    rcases htail with rfl | ⟨ds₂, rfl, hds2⟩
    · rw [List.nil_append, readNumGo_stop _ _ _ _ hrest]
      simp
    · rw [List.cons_append, readNumGo]
      rw [if_neg (by rintro (h | h) <;> cases h), if_neg (by decide),
        if_pos ⟨rfl, rfl, rfl⟩]
      rw [readNumGo_digits ds₂ _ true false rest hds2]
      rw [readNumGo_stop _ _ _ _ hrest]
      simp

theorem lexAll_num (l : List Char) (hl : NumShape l) (rest : List Char)
    (hrest : rest = [] ∨ (∃ r, rest = ' ' :: r) ∨ (∃ r, rest = ',' :: r)) :
    lexAll (l ++ rest) = numToken ⟨l⟩ :: lexAll rest := by
  have hread : readNum (l ++ rest) = (l, rest) := readNum_shape l hl rest hrest
  obtain ⟨sgn, ds₁, tail, heq, hsgn, hds1ne, hds1, htail⟩ := hl
  have hlen : rest.length < (l ++ rest).length + 1 := by
    simp
    omega
  have hhead : ∃ c l', l = c :: l' ∧ isSep c = false ∧ c.isAlpha = false ∧
      (c.isDigit = true ∨ c = '-' ∨ c = '+' ∨ c = '.') := by
    subst heq
    rcases hsgn with rfl | rfl
    · rcases ds₁ with _ | ⟨d, ds'⟩
      · exact absurd rfl hds1ne
      · have hd := digit_facts d (hds1 d (List.mem_cons_self _ _))
        exact ⟨d, ds' ++ tail, by simp, hd.2.1, hd.2.2.1, Or.inl hd.1⟩
    · exact ⟨'-', ds₁ ++ tail, by simp, rfl, rfl, Or.inr (Or.inl rfl)⟩
  obtain ⟨c, l', rfl, hsep, halpha, hnum⟩ := hhead
  simp only [lexAll, List.length_cons, List.cons_append]
  rw [lexGo]
  have hskip : skipWs (c :: (l' ++ rest)) = c :: (l' ++ rest) :=
    List.dropWhile_cons_of_neg (by simp [hsep])
  rw [hskip]
  dsimp only
  rw [if_neg (by simp [halpha]), if_pos hnum]
  rw [List.cons_append] at hread
  rw [hread]
  have hlt : rest.length < (l' ++ rest).length + 1 := by simp; omega
  rw [lexGo_fuel ((l' ++ rest).length + 1) rest (rest.length + 1) hlt (by omega)]

theorem natDigitsGo_shape :
    ∀ (fuel n : ℕ) (acc : List Char), n < fuel →
      ∃ ds, ds ≠ [] ∧ (∀ c ∈ ds, c ∈ digitChars) ∧
        natDigitsGo fuel n acc = ds ++ acc := by
  intro fuel
  induction fuel with
  | zero => intro n acc h; exact absurd h (Nat.not_lt_zero _)
  | succ fuel ih =>
    intro n acc h
    have hmod : n % 10 < 10 := Nat.mod_lt _ (by norm_num)
    have hd : Char.ofNat (48 + n % 10) ∈ digitChars := by
      interval_cases h : n % 10 <;> decide
    simp only [natDigitsGo]
    by_cases hn : n < 10
    · rw [if_pos hn]
      exact ⟨[Char.ofNat (48 + n % 10)], by simp, by simpa using hd, rfl⟩
    · rw [if_neg hn]
      obtain ⟨ds, hne, hdig, heq⟩ := ih (n / 10) (Char.ofNat (48 + n % 10) :: acc) (by omega)
      refine ⟨ds ++ [Char.ofNat (48 + n % 10)], by simp, ?_, by simp [heq]⟩
      intro c hc
      rcases List.mem_append.mp hc with hc | hc
      · exact hdig c hc
      · rcases List.mem_singleton.mp hc with rfl
        exact hd

theorem natStr_shape (n : ℕ) :
    (natStr n).data ≠ [] ∧ ∀ c ∈ (natStr n).data, c ∈ digitChars := by
  obtain ⟨ds, hne, hdig, heq⟩ := natDigitsGo_shape (n + 1) n [] (Nat.lt_succ_self n)
  unfold natStr
  rw [show (String.mk (natDigitsGo (n + 1) n [])).data = natDigitsGo (n + 1) n [] from rfl]
  rw [heq]
  simpa using ⟨hne, hdig⟩

theorem pad2_shape (n : ℕ) :
    (pad2 n).data ≠ [] ∧ ∀ c ∈ (pad2 n).data, c ∈ digitChars := by
  unfold pad2
  split_ifs with h
  · rw [String.data_append]
    constructor
    · simp
    · intro c hc
      rcases List.mem_append.mp hc with hc | hc
      · rw [show ("0" : String).data = ['0'] from rfl] at hc
        rcases List.mem_singleton.mp hc with rfl
        decide
      · exact (natStr_shape n).2 c hc
  · exact natStr_shape n

theorem dropTrail_data (c : Char) (s : String) :
    (dropTrail c s).data = (s.data.reverse.dropWhile (· = c)).reverse := rfl

theorem trimmed_shape (sgn ds₁ ds₂ : List Char)
    (hsgn : sgn = [] ∨ sgn = ['-']) (h1ne : ds₁ ≠ []) (h1 : ∀ c ∈ ds₁, c ∈ digitChars)
    (h2 : ∀ c ∈ ds₂, c ∈ digitChars) :
    NumShape (dropTrail '.' (dropTrail '0' ⟨sgn ++ ds₁ ++ '.' :: ds₂⟩)).data := by
  rw [dropTrail_data, dropTrail_data]
  rw [show (String.mk (sgn ++ ds₁ ++ '.' :: ds₂)).data = sgn ++ ds₁ ++ '.' :: ds₂ from rfl]
  rw [List.reverse_reverse]
  have hrev : (sgn ++ ds₁ ++ '.' :: ds₂).reverse =
      ds₂.reverse ++ '.' :: (ds₁.reverse ++ sgn.reverse) := by
    simp
  rw [hrev]
  rw [List.dropWhile_append]
  rcases hA : ds₂.reverse.dropWhile (· = '0') with _ | ⟨t0, tl⟩
  · rw [if_pos (show ([] : List Char).isEmpty = true from rfl)]
    rw [List.dropWhile_cons_of_neg (by decide)]
    rw [List.dropWhile_cons_of_pos (by decide)]
    rcases hd1 : ds₁.reverse with _ | ⟨d, ds₀r⟩
    · exact absurd (by simpa using congrArg List.reverse hd1) h1ne
    · have hd : d ∈ digitChars := by
        apply h1
        have hmem : d ∈ ds₁.reverse := by rw [hd1]; exact List.mem_cons_self _ _
        simpa using hmem
      have hdne : ¬(d = '.') := (digit_facts d hd).2.2.2.2.2.1
      have hds : (d :: ds₀r).reverse = ds₁ := by
        rw [← hd1]
        simp
      rw [show (d :: ds₀r) ++ sgn.reverse = d :: (ds₀r ++ sgn.reverse) from rfl]
      rw [List.dropWhile_cons_of_neg (by simpa using hdne)]
      refine ⟨sgn, ds₁, [], ?_, hsgn, h1ne, h1, Or.inl rfl⟩
      rw [show d :: (ds₀r ++ sgn.reverse) = (d :: ds₀r) ++ sgn.reverse from rfl]
      rw [List.reverse_append, hds]
      simp
  · rw [if_neg (by simp)]
    have htl_sub : ∀ c ∈ t0 :: tl, c ∈ digitChars := by
      intro c hc
      apply h2
      have hmem : c ∈ ds₂.reverse := by
        have := (List.dropWhile_sublist (p := fun x => decide (x = '0')) (l := ds₂.reverse))
        rw [hA] at this
        exact this.mem hc
      simpa using hmem
    have ht0 : t0 ∈ digitChars := htl_sub t0 (List.mem_cons_self _ _)
    have ht0ne : ¬(t0 = '.') := (digit_facts t0 ht0).2.2.2.2.2.1
    rw [show (t0 :: tl) ++ '.' :: (ds₁.reverse ++ sgn.reverse) =
      t0 :: (tl ++ '.' :: (ds₁.reverse ++ sgn.reverse)) from rfl]
    rw [List.dropWhile_cons_of_neg (by simpa using ht0ne)]
    refine ⟨sgn, ds₁, '.' :: (t0 :: tl).reverse, ?_, hsgn, h1ne, h1,
      Or.inr ⟨(t0 :: tl).reverse, rfl, ?_⟩⟩
    · rw [show t0 :: (tl ++ '.' :: (ds₁.reverse ++ sgn.reverse)) =
        (t0 :: tl) ++ '.' :: (ds₁.reverse ++ sgn.reverse) from rfl]
      simp
    · intro c hc
      exact htl_sub c (List.mem_reverse.mp hc)

theorem format_n_shape (q : ℚ) : NumShape (format_n q).data := by
  unfold format_n
  split_ifs with hden
  · unfold intStr
    split_ifs with hneg
    · rw [String.data_append]
      obtain ⟨hne, hdig⟩ := natStr_shape q.num.natAbs
      exact ⟨['-'], (natStr q.num.natAbs).data, [],
        by simp [show ("-" : String).data = ['-'] from rfl], Or.inr rfl, hne, hdig,
        Or.inl rfl⟩
    · rw [String.data_append]
      obtain ⟨hne, hdig⟩ := natStr_shape q.num.natAbs
      exact ⟨[], (natStr q.num.natAbs).data, [],
        by simp [show ("" : String).data = [] from rfl], Or.inl rfl, hne, hdig,
        Or.inl rfl⟩
  · have hfmt : fmt2 q = String.mk ((if q < 0 then ['-'] else []) ++
        (natStr (halfEven (|q| * 100) / 100).toNat).data ++
        '.' :: (pad2 (halfEven (|q| * 100) % 100).toNat).data) := by
      apply String.ext
      unfold fmt2
      simp only [String.data_append]
      split_ifs <;>
        simp [show ("-" : String).data = ['-'] from rfl,
          show ("" : String).data = [] from rfl,
          show ("." : String).data = ['.'] from rfl]
    rw [hfmt]
    exact trimmed_shape _ _ _ (by split_ifs <;> simp) (natStr_shape _).1
      (natStr_shape _).2 (pad2_shape _).2

theorem numToken_ok (q : ℚ) (hq : rustParseFloat (format_n q) = some q) :
    numToken ⟨(format_n q).data⟩ = .ok (.number q) := by
  show numToken (format_n q) = _
  unfold numToken
  rw [hq]

unseal Rat.add Rat.mul Rat.sub Rat.inv in
theorem lexAll_renderCmd (c : Command ℚ) (rest : List Char)
    (hrest : rest = [] ∨ ∃ r, rest = ' ' :: r)
    (hnums : ∀ q ∈ cmdNums c, rustParseFloat (format_n q) = some q) :
    lexAll ((renderCmd c).data ++ rest) =
      (.ok (.command (cmdLetter c)) ::
        (cmdArgVals c).map fun q => .ok (.number q)) ++ lexAll rest := by
  have hr3 : rest = [] ∨ (∃ r, rest = ' ' :: r) ∨ (∃ r, rest = ',' :: r) := by
    rcases hrest with h | h
    · exact Or.inl h
    · exact Or.inr (Or.inl h)
  cases c with
  | move x y =>
    have hx := hnums x (by simp [cmdNums])
    have hy := hnums y (by simp [cmdNums])
    simp only [renderCmd, cmdLetter, cmdArgVals, cmdNums, String.data_append,
      List.append_assoc, List.cons_append, List.nil_append, List.map_cons, List.map_nil,
      show ("M " : String).data = ['M', ' '] from rfl,
      show (" " : String).data = [' '] from rfl]
    rw [lexAll_letter 'M' _ (by decide) (by decide) (by decide),
      lexAll_sep ' ' _ (by decide),
      lexAll_num (format_n x).data (format_n_shape x) _ (Or.inr (Or.inl ⟨_, rfl⟩)),
      lexAll_sep ' ' _ (by decide),
      lexAll_num (format_n y).data (format_n_shape y) rest hr3,
      numToken_ok x hx, numToken_ok y hy]
  | line x y =>
    have hx := hnums x (by simp [cmdNums])
    have hy := hnums y (by simp [cmdNums])
    simp only [renderCmd, cmdLetter, cmdArgVals, cmdNums, String.data_append,
      List.append_assoc, List.cons_append, List.nil_append, List.map_cons, List.map_nil,
      show ("L " : String).data = ['L', ' '] from rfl,
      show (" " : String).data = [' '] from rfl]
    rw [lexAll_letter 'L' _ (by decide) (by decide) (by decide),
      lexAll_sep ' ' _ (by decide),
      lexAll_num (format_n x).data (format_n_shape x) _ (Or.inr (Or.inl ⟨_, rfl⟩)),
      lexAll_sep ' ' _ (by decide),
      lexAll_num (format_n y).data (format_n_shape y) rest hr3,
      numToken_ok x hx, numToken_ok y hy]
  | horizontal x =>
    have hx := hnums x (by simp [cmdNums])
    simp only [renderCmd, cmdLetter, cmdArgVals, cmdNums, String.data_append,
      List.append_assoc, List.cons_append, List.nil_append, List.map_cons, List.map_nil,
      show ("H " : String).data = ['H', ' '] from rfl]
    rw [lexAll_letter 'H' _ (by decide) (by decide) (by decide),
      lexAll_sep ' ' _ (by decide),
      lexAll_num (format_n x).data (format_n_shape x) rest hr3,
      numToken_ok x hx]
  | vertical y =>
    have hy := hnums y (by simp [cmdNums])
    simp only [renderCmd, cmdLetter, cmdArgVals, cmdNums, String.data_append,
      List.append_assoc, List.cons_append, List.nil_append, List.map_cons, List.map_nil,
      show ("V " : String).data = ['V', ' '] from rfl]
    rw [lexAll_letter 'V' _ (by decide) (by decide) (by decide),
      lexAll_sep ' ' _ (by decide),
      lexAll_num (format_n y).data (format_n_shape y) rest hr3,
      numToken_ok y hy]
  | cubic x1 y1 x2 y2 x y =>
    have h1 := hnums x1 (by simp [cmdNums])
    have h2 := hnums y1 (by simp [cmdNums])
    have h3 := hnums x2 (by simp [cmdNums])
    have h4 := hnums y2 (by simp [cmdNums])
    have h5 := hnums x (by simp [cmdNums])
    have h6 := hnums y (by simp [cmdNums])
    simp only [renderCmd, cmdLetter, cmdArgVals, cmdNums, String.data_append,
      List.append_assoc, List.cons_append, List.nil_append, List.map_cons, List.map_nil,
      show ("C " : String).data = ['C', ' '] from rfl,
      show (" " : String).data = [' '] from rfl,
      show ("," : String).data = [','] from rfl]
    rw [lexAll_letter 'C' _ (by decide) (by decide) (by decide),
      lexAll_sep ' ' _ (by decide),
      lexAll_num (format_n x1).data (format_n_shape x1) _ (Or.inr (Or.inl ⟨_, rfl⟩)),
      lexAll_sep ' ' _ (by decide),
      lexAll_num (format_n y1).data (format_n_shape y1) _ (Or.inr (Or.inr ⟨_, rfl⟩)),
      lexAll_sep ',' _ (by decide),
      lexAll_num (format_n x2).data (format_n_shape x2) _ (Or.inr (Or.inl ⟨_, rfl⟩)),
      lexAll_sep ' ' _ (by decide),
      lexAll_num (format_n y2).data (format_n_shape y2) _ (Or.inr (Or.inr ⟨_, rfl⟩)),
      lexAll_sep ',' _ (by decide),
      lexAll_num (format_n x).data (format_n_shape x) _ (Or.inr (Or.inl ⟨_, rfl⟩)),
      lexAll_sep ' ' _ (by decide),
      lexAll_num (format_n y).data (format_n_shape y) rest hr3,
      numToken_ok x1 h1, numToken_ok y1 h2, numToken_ok x2 h3, numToken_ok y2 h4,
      numToken_ok x h5, numToken_ok y h6]
  | quadratic x1 y1 x y =>
    have h1 := hnums x1 (by simp [cmdNums])
    have h2 := hnums y1 (by simp [cmdNums])
    have h5 := hnums x (by simp [cmdNums])
    have h6 := hnums y (by simp [cmdNums])
    simp only [renderCmd, cmdLetter, cmdArgVals, cmdNums, String.data_append,
      List.append_assoc, List.cons_append, List.nil_append, List.map_cons, List.map_nil,
      show ("Q " : String).data = ['Q', ' '] from rfl,
      show (" " : String).data = [' '] from rfl,
      show ("," : String).data = [','] from rfl]
    rw [lexAll_letter 'Q' _ (by decide) (by decide) (by decide),
      lexAll_sep ' ' _ (by decide),
      lexAll_num (format_n x1).data (format_n_shape x1) _ (Or.inr (Or.inl ⟨_, rfl⟩)),
      lexAll_sep ' ' _ (by decide),
      lexAll_num (format_n y1).data (format_n_shape y1) _ (Or.inr (Or.inr ⟨_, rfl⟩)),
      lexAll_sep ',' _ (by decide),
      lexAll_num (format_n x).data (format_n_shape x) _ (Or.inr (Or.inl ⟨_, rfl⟩)),
      lexAll_sep ' ' _ (by decide),
      lexAll_num (format_n y).data (format_n_shape y) rest hr3,
      numToken_ok x1 h1, numToken_ok y1 h2, numToken_ok x h5, numToken_ok y h6]
  | smoothCubic x2 y2 x y =>
    have h1 := hnums x2 (by simp [cmdNums])
    have h2 := hnums y2 (by simp [cmdNums])
    have h5 := hnums x (by simp [cmdNums])
    have h6 := hnums y (by simp [cmdNums])
    simp only [renderCmd, cmdLetter, cmdArgVals, cmdNums, String.data_append,
      List.append_assoc, List.cons_append, List.nil_append, List.map_cons, List.map_nil,
      show ("S " : String).data = ['S', ' '] from rfl,
      show (" " : String).data = [' '] from rfl,
      show ("," : String).data = [','] from rfl]
    rw [lexAll_letter 'S' _ (by decide) (by decide) (by decide),
      lexAll_sep ' ' _ (by decide),
      lexAll_num (format_n x2).data (format_n_shape x2) _ (Or.inr (Or.inl ⟨_, rfl⟩)),
      lexAll_sep ' ' _ (by decide),
      lexAll_num (format_n y2).data (format_n_shape y2) _ (Or.inr (Or.inr ⟨_, rfl⟩)),
      lexAll_sep ',' _ (by decide),
      lexAll_num (format_n x).data (format_n_shape x) _ (Or.inr (Or.inl ⟨_, rfl⟩)),
      lexAll_sep ' ' _ (by decide),
      lexAll_num (format_n y).data (format_n_shape y) rest hr3,
      numToken_ok x2 h1, numToken_ok y2 h2, numToken_ok x h5, numToken_ok y h6]
  | smoothQuadratic x y =>
    have hx := hnums x (by simp [cmdNums])
    have hy := hnums y (by simp [cmdNums])
    simp only [renderCmd, cmdLetter, cmdArgVals, cmdNums, String.data_append,
      List.append_assoc, List.cons_append, List.nil_append, List.map_cons, List.map_nil,
      show ("T " : String).data = ['T', ' '] from rfl,
      show (" " : String).data = [' '] from rfl]
    rw [lexAll_letter 'T' _ (by decide) (by decide) (by decide),
      lexAll_sep ' ' _ (by decide),
      lexAll_num (format_n x).data (format_n_shape x) _ (Or.inr (Or.inl ⟨_, rfl⟩)),
      lexAll_sep ' ' _ (by decide),
      lexAll_num (format_n y).data (format_n_shape y) rest hr3,
      numToken_ok x hx, numToken_ok y hy]
  | arc rx ry rot laf swf x y =>
    have h1 := hnums rx (by simp [cmdNums])
    have h2 := hnums ry (by simp [cmdNums])
    have h3 := hnums rot (by simp [cmdNums])
    have h5 := hnums x (by simp [cmdNums])
    have h6 := hnums y (by simp [cmdNums])
    have hflag : ∀ b : Bool,
        ((if b then "1" else "0") : String).data = (format_n (if b then 1 else 0)).data := by
      intro b
      cases b <;> decide
    simp only [renderCmd, cmdLetter, cmdArgVals, cmdNums, String.data_append,
      List.append_assoc, List.cons_append, List.nil_append, List.map_cons, List.map_nil,
      hflag,
      show ("A " : String).data = ['A', ' '] from rfl,
      show (" " : String).data = [' '] from rfl]
    have hflagv : ∀ b : Bool,
        rustParseFloat (format_n (if b then (1 : ℚ) else 0)) = some (if b then 1 else 0) := by
      intro b
      cases b <;> decide
    rw [lexAll_letter 'A' _ (by decide) (by decide) (by decide),
      lexAll_sep ' ' _ (by decide),
      lexAll_num (format_n rx).data (format_n_shape rx) _ (Or.inr (Or.inl ⟨_, rfl⟩)),
      lexAll_sep ' ' _ (by decide),
      lexAll_num (format_n ry).data (format_n_shape ry) _ (Or.inr (Or.inl ⟨_, rfl⟩)),
      lexAll_sep ' ' _ (by decide),
      lexAll_num (format_n rot).data (format_n_shape rot) _ (Or.inr (Or.inl ⟨_, rfl⟩)),
      lexAll_sep ' ' _ (by decide),
      lexAll_num (format_n (if laf then 1 else 0)).data (format_n_shape _) _
        (Or.inr (Or.inl ⟨_, rfl⟩)),
      lexAll_sep ' ' _ (by decide),
      lexAll_num (format_n (if swf then 1 else 0)).data (format_n_shape _) _
        (Or.inr (Or.inl ⟨_, rfl⟩)),
      lexAll_sep ' ' _ (by decide),
      lexAll_num (format_n x).data (format_n_shape x) _ (Or.inr (Or.inl ⟨_, rfl⟩)),
      lexAll_sep ' ' _ (by decide),
      lexAll_num (format_n y).data (format_n_shape y) rest hr3,
      numToken_ok rx h1, numToken_ok ry h2, numToken_ok rot h3,
      numToken_ok _ (hflagv laf), numToken_ok _ (hflagv swf),
      numToken_ok x h5, numToken_ok y h6]
  | close =>
    simp only [renderCmd, cmdLetter, cmdArgVals, cmdNums, List.map_nil,
      show ("Z" : String).data = ['Z'] from rfl, List.cons_append, List.nil_append]
    rw [lexAll_letter 'Z' _ (by decide) (by decide) (by decide)]

theorem lexAll_renderPath :
    ∀ (cmds : List (Command ℚ)), cmds ≠ [] →
      (∀ q ∈ pathNums cmds, rustParseFloat (format_n q) = some q) →
      lexAll (renderPath cmds).data = pathToks cmds := by
  intro cmds
  induction cmds with
  | nil => intro h; exact absurd rfl h
  | cons c rest ih =>
    intro _ hnums
    have hnc : ∀ q ∈ cmdNums c, rustParseFloat (format_n q) = some q := by
      intro q hq
      exact hnums q (by simp [pathNums]; exact Or.inl hq)
    rcases rest with _ | ⟨c2, rest'⟩
    · rw [show renderPath [c] = renderCmd c from rfl]
      have h2 := lexAll_renderCmd c [] (Or.inl rfl) hnc
      rw [List.append_nil] at h2
      rw [h2]
      simp [pathToks, lexAll, lexGo, skipWs]
    · rw [show renderPath (c :: c2 :: rest') =
        renderCmd c ++ " " ++ renderPath (c2 :: rest') from rfl]
      rw [String.data_append, String.data_append]
      rw [show (" " : String).data = [' '] from rfl]
      rw [List.append_assoc]
      rw [show [' '] ++ (renderPath (c2 :: rest')).data =
        ' ' :: (renderPath (c2 :: rest')).data from rfl]
      rw [lexAll_renderCmd c (' ' :: (renderPath (c2 :: rest')).data)
        (Or.inr ⟨_, rfl⟩) hnc]
      rw [lexAll_sep ' ' _ (by decide)]
      rw [ih (by simp) (by
        intro q hq
        exact hnums q (by simp [pathNums] at hq ⊢; exact Or.inr hq))]
      simp [pathToks]

theorem processCommand_render (c : Command ℚ) (st : PState)
    (rest : List (Except LexerError Token))
    (hz : c = .close → rest = [] ∨ ∃ d r, rest = .ok (.command d) :: r) :
    ∃ st', processCommand (cmdLetter c) st
      (((cmdArgVals c).map fun q => .ok (.number q)) ++ rest) = .ok (c, st', rest) := by
  cases c with
  | move x y => exact ⟨_, rfl⟩
  | line x y => exact ⟨_, rfl⟩
  | horizontal x => exact ⟨_, rfl⟩
  | vertical y => exact ⟨_, rfl⟩
  | cubic x1 y1 x2 y2 x y => exact ⟨_, rfl⟩
  | quadratic x1 y1 x y => exact ⟨_, rfl⟩
  | smoothCubic x2 y2 x y => exact ⟨_, rfl⟩
  | smoothQuadratic x y => exact ⟨_, rfl⟩
  | arc rx ry rot laf swf x y =>
    cases laf <;> cases swf <;> exact ⟨_, rfl⟩
  | close =>
    rcases hz rfl with rfl | ⟨d, r, rfl⟩
    · exact ⟨_, rfl⟩
    · exact ⟨_, rfl⟩

theorem innerRep_break (fuel : ℕ) (c : Char) (st : PState)
    (toks : List (Except LexerError Token)) (acc : List (Command ℚ))
    (h : toks = [] ∨ ∃ d r, toks = .ok (.command d) :: r) :
    innerRep (fuel + 1) c st toks acc = .ok (c, st, toks, acc) := by
  rcases h with rfl | ⟨d, r, rfl⟩ <;> rfl

theorem pathToks_head (cmds : List (Command ℚ)) :
    pathToks cmds = [] ∨ ∃ d r, pathToks cmds = .ok (.command d) :: r := by
  rcases cmds with _ | ⟨c, rest⟩
  · exact Or.inl rfl
  · exact Or.inr ⟨cmdLetter c,
      ((cmdArgVals c).map fun q => .ok (.number q)) ++ pathToks rest,
      by simp [pathToks]⟩

theorem outerLoop_render :
    ∀ (cmds : List (Command ℚ)) (fuel : ℕ) (lastCmd : Option Char) (st : PState)
      (acc : List (Command ℚ)), cmds.length < fuel →
      outerLoop fuel lastCmd st (pathToks cmds) acc = .ok (acc ++ cmds) := by
  intro cmds
  induction cmds with
  | nil =>
    intro fuel last st acc hf
    rcases fuel with _ | f
    · exact absurd hf (by omega)
    · simp [pathToks, outerLoop]
  | cons c rest ih =>
    intro fuel last st acc hf
    rcases fuel with _ | f
    · exact absurd hf (by omega)
    · have hpt : pathToks (c :: rest) =
          .ok (.command (cmdLetter c)) ::
            (((cmdArgVals c).map fun q => .ok (.number q)) ++ pathToks rest) := by
        simp [pathToks]
      rw [hpt]
      simp only [outerLoop]
      rw [if_neg (by simp [isNumTok])]
      obtain ⟨st', hp⟩ := processCommand_render c st (pathToks rest)
        (fun _ => pathToks_head rest)
      rw [hp]
      dsimp only
      rw [innerRep_break _ _ _ _ _ (pathToks_head rest)]
      dsimp only
      rw [ih f (some (cmdLetter c)) st' (acc ++ [c]) (by simp at hf; omega)]
      simp

theorem pathToks_length (cmds : List (Command ℚ)) :
    cmds.length ≤ (pathToks cmds).length := by
  induction cmds with
  | nil => simp [pathToks]
  | cons c rest ih =>
    have : pathToks (c :: rest) =
        .ok (.command (cmdLetter c)) ::
          (((cmdArgVals c).map fun q => .ok (.number q)) ++ pathToks rest) := by
      simp [pathToks]
    rw [this]
    simp only [List.length_cons, List.length_append, List.length_map]
    omega

/-- C2 (amended).  If `parse s = Ok cmds` and every numeric field of `cmds`
survives the 2-decimal display rounding (`rustParseFloat (format_n q) = q`),
then re-parsing the rendered text is stable: `parse (format cmds) = Ok cmds`.
Without that proviso the round-trip can change values, since `format_n`
rounds to two decimals (see the counterexample). -/
theorem c2_roundtrip_amended (s : String) (cmds : List (Command ℚ))
    (hp : parse s = .ok cmds)
    (hnum : ∀ q ∈ pathNums cmds, rustParseFloat (format_n q) = some q) :
    parse (renderPath cmds) = .ok cmds := by
  have hne : cmds ≠ [] := by
    unfold parse at hp
    by_cases he : (lexStr s).isEmpty
    · rw [if_pos he] at hp
      cases hp
    · rw [if_neg he] at hp
      have hlt := (outerLoop_grows _ _ _ _ _ _ hp).2 (by
        intro hnil
        rw [hnil] at he
        exact he rfl)
      simp only [List.length_nil] at hlt
      exact List.ne_nil_of_length_pos hlt
  have hlex : lexStr (renderPath cmds) = pathToks cmds :=
    lexAll_renderPath cmds hne hnum
  unfold parse
  rw [hlex]
  have hptne : ¬(pathToks cmds).isEmpty = true := by
    rcases pathToks_head cmds with h | ⟨d, r, h⟩
    · rcases cmds with _ | ⟨c, rest⟩
      · exact absurd rfl hne
      · simp [pathToks] at h
    · rw [h]
      simp
  rw [if_neg hptne]
  exact outerLoop_render cmds _ none initPState []
    (by have := pathToks_length cmds; omega)

unseal Rat.add Rat.mul Rat.sub Rat.inv in
/-- C2 counterexample.  `parse "M 0.001 0"` succeeds, but its rendering is
`"M 0 0"` (the display formatter keeps only 2 decimals), which re-parses to
a different command sequence: the round-trip is not stable for every
parsable input. -/
theorem c2_counterexample :
    parse "M 0.001 0" = .ok [.move (1 / 1000) 0] ∧
    renderPath [Command.move (1 / 1000 : ℚ) 0] = "M 0 0" ∧
    parse (renderPath [Command.move (1 / 1000 : ℚ) 0]) = .ok [.move 0 0] ∧
    [Command.move (0 : ℚ) 0] ≠ [Command.move (1 / 1000 : ℚ) 0] := by
  refine ⟨by decide, by decide, by decide, by decide⟩

unseal Rat.add Rat.mul Rat.sub Rat.inv in
/-- C2 witness: the amended round-trip at a concrete input whose numbers
are preserved by the formatter. -/
theorem c2_roundtrip_amended_witness :
    parse (renderPath [Command.move (5 : ℚ) 7, Command.line 2 10]) =
      .ok [Command.move 5 7, Command.line 2 10] :=
  c2_roundtrip_amended "M 5 7 L 2 10" [Command.move 5 7, Command.line 2 10]
    (by decide) (by decide)

/-! ## Arc evaluation (claims C1 and C6) -/

theorem atan2_zero_neg_one : atan2 0 (-1) = Real.pi := by
  unfold atan2
  rw [show (⟨-1, 0⟩ : ℂ) = (-1 : ℂ) from by simp [Complex.ext_iff]]
  exact Complex.arg_neg_one

theorem atan2_zero_one : atan2 0 1 = 0 := by
  unfold atan2
  rw [show (⟨1, 0⟩ : ℂ) = (1 : ℂ) from by simp [Complex.ext_iff]]
  exact Complex.arg_one

theorem approx_eval_pi (cx cy rx ry : ℝ) :
    approximate_unit_bezier cx cy rx ry 0 Real.pi (Real.pi / 2) =
      .cubic (cx - rx) (cy - aK * ry) (cx - aK * rx) (cy - ry) cx (cy - ry) := by
  unfold approximate_unit_bezier
  dsimp only
  rw [Real.sin_pi_div_two,
    show Real.pi / 2 / 2 = Real.pi / 4 from by ring, Real.cos_pi_div_four,
    Real.cos_pi, Real.sin_pi, Real.cos_zero, Real.sin_zero]
  rw [show Real.cos (Real.pi + Real.pi / 2) = 0 from by
      rw [Real.cos_add, Real.cos_pi, Real.sin_pi, Real.cos_pi_div_two,
        Real.sin_pi_div_two]; ring,
    show Real.sin (Real.pi + Real.pi / 2) = -1 from by
      rw [Real.sin_add, Real.cos_pi, Real.sin_pi, Real.cos_pi_div_two,
        Real.sin_pi_div_two]; ring]
  congr 1 <;> (try simp only [aK]) <;> ring

theorem approx_eval_3pi2 (cx cy rx ry : ℝ) :
    approximate_unit_bezier cx cy rx ry 0 (Real.pi + Real.pi / 2) (Real.pi / 2) =
      .cubic (cx + aK * rx) (cy - ry) (cx + rx) (cy - aK * ry) (cx + rx) cy := by
  unfold approximate_unit_bezier
  dsimp only
  rw [Real.sin_pi_div_two,
    show Real.pi / 2 / 2 = Real.pi / 4 from by ring, Real.cos_pi_div_four,
    Real.cos_zero, Real.sin_zero]
  rw [show Real.cos (Real.pi + Real.pi / 2) = 0 from by
      rw [Real.cos_add, Real.cos_pi, Real.sin_pi, Real.cos_pi_div_two,
        Real.sin_pi_div_two]; ring,
    show Real.sin (Real.pi + Real.pi / 2) = -1 from by
      rw [Real.sin_add, Real.cos_pi, Real.sin_pi, Real.cos_pi_div_two,
        Real.sin_pi_div_two]; ring]
  rw [show Real.pi + Real.pi / 2 + Real.pi / 2 = 2 * Real.pi from by ring,
    Real.cos_two_pi, Real.sin_two_pi]
  congr 1 <;> (try simp only [aK]) <;> ring

theorem approx_eval_zero (cx cy rx ry : ℝ) :
    approximate_unit_bezier cx cy rx ry 0 0 (Real.pi / 2) =
      .cubic (cx + rx) (cy + aK * ry) (cx + aK * rx) (cy + ry) cx (cy + ry) := by
  unfold approximate_unit_bezier
  dsimp only
  rw [Real.sin_pi_div_two,
    show Real.pi / 2 / 2 = Real.pi / 4 from by ring, Real.cos_pi_div_four,
    Real.cos_zero, Real.sin_zero]
  rw [show (0 : ℝ) + Real.pi / 2 = Real.pi / 2 from by ring,
    Real.cos_pi_div_two, Real.sin_pi_div_two]
  congr 1 <;> (try simp only [aK]) <;> ring

theorem approx_eval_pi2 (cx cy rx ry : ℝ) :
    approximate_unit_bezier cx cy rx ry 0 (0 + Real.pi / 2) (Real.pi / 2) =
      .cubic (cx - aK * rx) (cy + ry) (cx - rx) (cy + aK * ry) (cx - rx) cy := by
  unfold approximate_unit_bezier
  dsimp only
  rw [Real.sin_pi_div_two,
    show Real.pi / 2 / 2 = Real.pi / 4 from by ring, Real.cos_pi_div_four,
    Real.cos_zero, Real.sin_zero]
  rw [show (0 : ℝ) + Real.pi / 2 = Real.pi / 2 from by ring,
    Real.cos_pi_div_two, Real.sin_pi_div_two]
  rw [show Real.pi / 2 + Real.pi / 2 = Real.pi from by ring,
    Real.cos_pi, Real.sin_pi]
  congr 1 <;> (try simp only [aK]) <;> ring

theorem arc1_eval :
    arc_to_cubics ⟨10, 30⟩ 20 20 0 false true ⟨50, 30⟩ =
      [approximate_unit_bezier 30 30 20 20 0 Real.pi (Real.pi / 2),
       approximate_unit_bezier 30 30 20 20 0 (Real.pi + Real.pi / 2) (Real.pi / 2)] := by
  unfold arc_to_cubics
  rw [if_neg (by norm_num)]
  unfold angle_between
  dsimp only
  norm_num [Real.cos_zero, Real.sin_zero, Real.sqrt_zero]
  rw [atan2_zero_neg_one]
  rw [if_neg (not_lt.mpr (le_of_lt Real.pi_pos))]
  rw [abs_of_pos Real.pi_pos]
  have hdiv : Real.pi / (Real.pi / 2) = 2 := by
    rw [div_div_eq_mul_div, mul_comm, mul_div_assoc, div_self Real.pi_ne_zero, mul_one]
  rw [hdiv]
  norm_num
  rw [show Int.toNat 2 = 2 from rfl]
  norm_num [arcSegsGo]

theorem arc2_eval :
    arc_to_cubics ⟨50, 30⟩ 20 20 0 false true ⟨10, 30⟩ =
      [approximate_unit_bezier 30 30 20 20 0 0 (Real.pi / 2),
       approximate_unit_bezier 30 30 20 20 0 (0 + Real.pi / 2) (Real.pi / 2)] := by
  unfold arc_to_cubics
  rw [if_neg (by norm_num)]
  unfold angle_between
  dsimp only
  norm_num [Real.cos_zero, Real.sin_zero, Real.sqrt_zero]
  rw [atan2_zero_neg_one, atan2_zero_one]
  rw [if_neg (not_lt.mpr (le_of_lt Real.pi_pos))]
  rw [abs_of_pos Real.pi_pos]
  have hdiv : Real.pi / (Real.pi / 2) = 2 := by
    rw [div_div_eq_mul_div, mul_comm, mul_div_assoc, div_self Real.pi_ne_zero, mul_one]
  rw [hdiv]
  norm_num
  rw [show Int.toNat 2 = 2 from rfl]
  norm_num [arcSegsGo]

theorem arc_tiny_eval :
    arc_to_cubics ⟨0, 0⟩ (1 / 1000000000) (1 / 1000000000) 0 false true ⟨1, 0⟩ =
      [approximate_unit_bezier (1 / 2) 0 (1 / 2) (1 / 2) 0 Real.pi (Real.pi / 2),
       approximate_unit_bezier (1 / 2) 0 (1 / 2) (1 / 2) 0 (Real.pi + Real.pi / 2)
         (Real.pi / 2)] := by
  unfold arc_to_cubics
  rw [if_neg (by norm_num)]
  unfold angle_between
  dsimp only
  norm_num [Real.cos_zero, Real.sin_zero]
  rw [show (250000000000000000 : ℝ) = 500000000 ^ 2 from by norm_num,
    Real.sqrt_sq (by norm_num : (0 : ℝ) ≤ 500000000)]
  rw [show |(1 : ℝ) / 1000000000| = 1 / 1000000000 from abs_of_pos (by norm_num)]
  norm_num [Real.sqrt_zero]
  rw [atan2_zero_neg_one]
  rw [if_neg (not_lt.mpr (le_of_lt Real.pi_pos))]
  rw [abs_of_pos Real.pi_pos]
  have hdiv : Real.pi / (Real.pi / 2) = 2 := by
    rw [div_div_eq_mul_div, mul_comm, mul_div_assoc, div_self Real.pi_ne_zero, mul_one]
  rw [hdiv]
  norm_num
  rw [show Int.toNat 2 = 2 from rfl]
  norm_num [arcSegsGo]

/-- C6 counterexample.  For the arc from `(0,0)` to `(1,0)` with
`rx = ry = 1e-9` — so its radii are below any reasonable epsilon — the
conversion does not produce a single `Line`: the radii are scaled up to
span the chord and two `Cubic` commands are emitted. -/
theorem c6_counterexample :
    (arc_to_cubics ⟨0, 0⟩ (1 / 1000000000) (1 / 1000000000) 0 false true
      ⟨1, 0⟩).length = 2 ∧
    (arc_to_cubics ⟨0, 0⟩ (1 / 1000000000) (1 / 1000000000) 0 false true
      ⟨1, 0⟩).all isCubic = true ∧
    arc_to_cubics ⟨0, 0⟩ (1 / 1000000000) (1 / 1000000000) 0 false true ⟨1, 0⟩ ≠
      [Command.line 1 0] := by
  rw [arc_tiny_eval]
  refine ⟨rfl, ?_, ?_⟩
  · simp [List.all_cons, approx_isCubic]
  · intro h
    cases h

end Svg

namespace Svg

theorem addExt_noop (bx : BBox) (p0 p1 p2 p3 : ℝ) (is_x : Bool)
    (h : ∀ t ∈ find_roots (3 * (-p0 + 3 * p1 - 3 * p2 + p3)) (6 * (p0 - 2 * p1 + p2))
      (3 * (p1 - p0)), ¬(0 < t ∧ t < 1)) :
    bx.add_bezier_extrema p0 p1 p2 p3 is_x = bx := by
  unfold BBox.add_bezier_extrema
  dsimp only
  revert h
  generalize find_roots (3 * (-p0 + 3 * p1 - 3 * p2 + p3)) (6 * (p0 - 2 * p1 + p2))
    (3 * (p1 - p0)) = roots
  intro h
  induction roots generalizing bx with
  | nil => rfl
  | cons t ts ih =>
    simp only [List.foldl_cons]
    rw [if_neg (h t (List.mem_cons_self _ _))]
    exact ih bx fun u hu => h u (List.mem_cons_of_mem _ hu)

theorem noop_A (bx : BBox) (is_x : Bool) :
    bx.add_bezier_extrema 10 10 (30 - 20 * aK) 30 is_x = bx := by
  apply addExt_noop
  intro t ht
  have h2 : Real.sqrt 2 ^ 2 = 2 := Real.sq_sqrt (by norm_num)
  have h0 : (0 : ℝ) ≤ Real.sqrt 2 := Real.sqrt_nonneg 2
  have hs1 : (1 : ℝ) < Real.sqrt 2 := by nlinarith
  have hs15 : Real.sqrt 2 < 3 / 2 := by nlinarith
  rw [show 3 * (-(10 : ℝ) + 3 * 10 - 3 * (30 - 20 * aK) + 30) =
      120 - 120 * Real.sqrt 2 from by simp only [aK]; ring,
    show 6 * ((10 : ℝ) - 2 * 10 + (30 - 20 * aK)) = 80 * Real.sqrt 2 - 40 from by
      simp only [aK]; ring,
    show 3 * ((10 : ℝ) - 10) = 0 from by ring] at ht
  rw [find_roots] at ht
  have hsmall : ¬|(120 : ℝ) - 120 * Real.sqrt 2| < 1e-9 := by
    rw [abs_of_neg (show (120 : ℝ) - 120 * Real.sqrt 2 < 0 by nlinarith)]
    intro hq
    nlinarith
  rw [if_neg hsmall] at ht
  dsimp only at ht
  rw [if_pos (by nlinarith [sq_nonneg (80 * Real.sqrt 2 - 40)])] at ht
  rw [show (80 * Real.sqrt 2 - 40) * (80 * Real.sqrt 2 - 40) -
      4 * (120 - 120 * Real.sqrt 2) * 0 = (80 * Real.sqrt 2 - 40) ^ 2 from by ring,
    Real.sqrt_sq (by nlinarith)] at ht
  simp only [List.mem_cons, List.not_mem_nil, or_false] at ht
  rcases ht with rfl | rfl
  · rintro ⟨hlt, -⟩
    rw [show (-(80 * Real.sqrt 2 - 40) + (80 * Real.sqrt 2 - 40)) /
        (2 * (120 - 120 * Real.sqrt 2)) = 0 from by ring] at hlt
    exact lt_irrefl 0 hlt
  · rintro ⟨-, hlt⟩
    have hd : 2 * (120 - 120 * Real.sqrt 2) < 0 := by nlinarith
    rw [div_lt_iff_of_neg hd] at hlt
    nlinarith

theorem noop_B (bx : BBox) (is_x : Bool) :
    bx.add_bezier_extrema 30 (30 - 20 * aK) 10 10 is_x = bx := by
  apply addExt_noop
  intro t ht
  have h2 : Real.sqrt 2 ^ 2 = 2 := Real.sq_sqrt (by norm_num)
  have h0 : (0 : ℝ) ≤ Real.sqrt 2 := Real.sqrt_nonneg 2
  have hs1 : (1 : ℝ) < Real.sqrt 2 := by nlinarith
  have hs15 : Real.sqrt 2 < 3 / 2 := by nlinarith
  rw [show 3 * (-(30 : ℝ) + 3 * (30 - 20 * aK) - 3 * 10 + 10) =
      120 * Real.sqrt 2 - 120 from by simp only [aK]; ring,
    show 6 * ((30 : ℝ) - 2 * (30 - 20 * aK) + 10) = 200 - 160 * Real.sqrt 2 from by
      simp only [aK]; ring,
    show 3 * ((30 - 20 * aK) - (30 : ℝ)) = 40 * Real.sqrt 2 - 80 from by
      simp only [aK]; ring] at ht
  rw [find_roots] at ht
  have hsmall : ¬|(120 : ℝ) * Real.sqrt 2 - 120| < 1e-9 := by
    rw [abs_of_pos (show (0 : ℝ) < 120 * Real.sqrt 2 - 120 by nlinarith)]
    intro hq
    nlinarith
  rw [if_neg hsmall] at ht
  dsimp only at ht
  rw [if_pos (by nlinarith [sq_nonneg (80 * Real.sqrt 2 - 40)])] at ht
  rw [show (200 - 160 * Real.sqrt 2) * (200 - 160 * Real.sqrt 2) -
      4 * (120 * Real.sqrt 2 - 120) * (40 * Real.sqrt 2 - 80) =
      (80 * Real.sqrt 2 - 40) ^ 2 from by nlinarith [h2],
    Real.sqrt_sq (by nlinarith)] at ht
  have hd : (0 : ℝ) < 2 * (120 * Real.sqrt 2 - 120) := by nlinarith
  simp only [List.mem_cons, List.not_mem_nil, or_false] at ht
  rcases ht with rfl | rfl
  · rintro ⟨-, hlt⟩
    rw [div_lt_iff₀ hd] at hlt
    nlinarith
  · rintro ⟨hlt, -⟩
    rw [lt_div_iff₀ hd] at hlt
    nlinarith

theorem noop_C (bx : BBox) (is_x : Bool) :
    bx.add_bezier_extrema 30 (30 + 20 * aK) 50 50 is_x = bx := by
  apply addExt_noop
  intro t ht
  have h2 : Real.sqrt 2 ^ 2 = 2 := Real.sq_sqrt (by norm_num)
  have h0 : (0 : ℝ) ≤ Real.sqrt 2 := Real.sqrt_nonneg 2
  have hs1 : (1 : ℝ) < Real.sqrt 2 := by nlinarith
  have hs15 : Real.sqrt 2 < 3 / 2 := by nlinarith
  rw [show 3 * (-(30 : ℝ) + 3 * (30 + 20 * aK) - 3 * 50 + 50) =
      120 - 120 * Real.sqrt 2 from by simp only [aK]; ring,
    show 6 * ((30 : ℝ) - 2 * (30 + 20 * aK) + 50) = 160 * Real.sqrt 2 - 200 from by
      simp only [aK]; ring,
    show 3 * ((30 + 20 * aK) - (30 : ℝ)) = 80 - 40 * Real.sqrt 2 from by
      simp only [aK]; ring] at ht
  rw [find_roots] at ht
  have hsmall : ¬|(120 : ℝ) - 120 * Real.sqrt 2| < 1e-9 := by
    rw [abs_of_neg (show (120 : ℝ) - 120 * Real.sqrt 2 < 0 by nlinarith)]
    intro hq
    nlinarith
  rw [if_neg hsmall] at ht
  dsimp only at ht
  rw [if_pos (by nlinarith [sq_nonneg (80 * Real.sqrt 2 - 40)])] at ht
  rw [show (160 * Real.sqrt 2 - 200) * (160 * Real.sqrt 2 - 200) -
      4 * (120 - 120 * Real.sqrt 2) * (80 - 40 * Real.sqrt 2) =
      (80 * Real.sqrt 2 - 40) ^ 2 from by nlinarith [h2],
    Real.sqrt_sq (by nlinarith)] at ht
  have hd : 2 * ((120 : ℝ) - 120 * Real.sqrt 2) < 0 := by nlinarith
  simp only [List.mem_cons, List.not_mem_nil, or_false] at ht
  rcases ht with rfl | rfl
  · rintro ⟨hlt, -⟩
    rw [lt_div_iff_of_neg hd] at hlt
    nlinarith
  · rintro ⟨-, hlt⟩
    rw [div_lt_iff_of_neg hd] at hlt
    nlinarith

theorem noop_D (bx : BBox) (is_x : Bool) :
    bx.add_bezier_extrema 50 50 (30 + 20 * aK) 30 is_x = bx := by
  apply addExt_noop
  intro t ht
  have h2 : Real.sqrt 2 ^ 2 = 2 := Real.sq_sqrt (by norm_num)
  have h0 : (0 : ℝ) ≤ Real.sqrt 2 := Real.sqrt_nonneg 2
  have hs1 : (1 : ℝ) < Real.sqrt 2 := by nlinarith
  have hs15 : Real.sqrt 2 < 3 / 2 := by nlinarith
  rw [show 3 * (-(50 : ℝ) + 3 * 50 - 3 * (30 + 20 * aK) + 30) =
      120 * Real.sqrt 2 - 120 from by simp only [aK]; ring,
    show 6 * ((50 : ℝ) - 2 * 50 + (30 + 20 * aK)) = 40 - 80 * Real.sqrt 2 from by
      simp only [aK]; ring,
    show 3 * ((50 : ℝ) - 50) = 0 from by ring] at ht
  rw [find_roots] at ht
  have hsmall : ¬|(120 : ℝ) * Real.sqrt 2 - 120| < 1e-9 := by
    rw [abs_of_pos (show (0 : ℝ) < 120 * Real.sqrt 2 - 120 by nlinarith)]
    intro hq
    nlinarith
  rw [if_neg hsmall] at ht
  dsimp only at ht
  rw [if_pos (by nlinarith [sq_nonneg (40 - 80 * Real.sqrt 2)])] at ht
  rw [show (40 - 80 * Real.sqrt 2) * (40 - 80 * Real.sqrt 2) -
      4 * (120 * Real.sqrt 2 - 120) * 0 = (80 * Real.sqrt 2 - 40) ^ 2 from by ring,
    Real.sqrt_sq (by nlinarith)] at ht
  have hd : (0 : ℝ) < 2 * (120 * Real.sqrt 2 - 120) := by nlinarith
  simp only [List.mem_cons, List.not_mem_nil, or_false] at ht
  rcases ht with rfl | rfl
  · rintro ⟨-, hlt⟩
    rw [div_lt_iff₀ hd] at hlt
    nlinarith
  · rintro ⟨hlt, -⟩
    rw [show (-(40 - 80 * Real.sqrt 2) - (80 * Real.sqrt 2 - 40)) /
        (2 * (120 * Real.sqrt 2 - 120)) = 0 from by ring] at hlt
    exact lt_irrefl 0 hlt

theorem add_point_coe (a b c d x y : ℝ) :
    (BBox.mk (a : EReal) (b : EReal) (c : EReal) (d : EReal)).add_point x y =
      ⟨((min x a : ℝ) : EReal), ((min y b : ℝ) : EReal),
        ((max c x : ℝ) : EReal), ((max d y : ℝ) : EReal)⟩ := by
  rw [add_point_spec]
  dsimp only
  congr 1
  · by_cases h : x < a
    · rw [if_pos (EReal.coe_lt_coe_iff.mpr h), min_eq_left (le_of_lt h)]
    · rw [if_neg (fun hc => h (EReal.coe_lt_coe_iff.mp hc)),
        min_eq_right (not_lt.mp h)]
  · by_cases h : y < b
    · rw [if_pos (EReal.coe_lt_coe_iff.mpr h), min_eq_left (le_of_lt h)]
    · rw [if_neg (fun hc => h (EReal.coe_lt_coe_iff.mp hc)),
        min_eq_right (not_lt.mp h)]
  · by_cases h : c < x
    · rw [if_pos (EReal.coe_lt_coe_iff.mpr h), max_eq_right (le_of_lt h)]
    · rw [if_neg (fun hc => h (EReal.coe_lt_coe_iff.mp hc)),
        max_eq_left (not_lt.mp h)]
  · by_cases h : d < y
    · rw [if_pos (EReal.coe_lt_coe_iff.mpr h), max_eq_right (le_of_lt h)]
    · rw [if_neg (fun hc => h (EReal.coe_lt_coe_iff.mp hc)),
        max_eq_left (not_lt.mp h)]

unseal Rat.add Rat.mul Rat.sub Rat.inv in
theorem circle_parse :
    parse "M 10,30 A 20,20 0,0,1 50,30 A 20,20 0,0,1 10,30" =
      .ok [Command.move (10 : ℚ) 30, Command.arc 20 20 0 false true 50 30,
        Command.arc 20 20 0 false true 10 30] := by
  decide

theorem circle_cast :
    List.map castCmd [Command.move (10 : ℚ) 30, Command.arc 20 20 0 false true 50 30,
        Command.arc 20 20 0 false true 10 30] =
      [Command.move (10 : ℝ) 30, Command.arc 20 20 0 false true 50 30,
        Command.arc 20 20 0 false true 10 30] := by
  simp only [List.map, castCmd]
  norm_num

theorem circle_simplify :
    simplify [Command.move (10 : ℝ) 30, Command.arc 20 20 0 false true 50 30,
        Command.arc 20 20 0 false true 10 30] =
      [Command.move (10 : ℝ) 30,
        Command.cubic 10 (30 - 20 * aK) (30 - 20 * aK) 10 30 10,
        Command.cubic (30 + 20 * aK) 10 50 (30 - 20 * aK) 50 30,
        Command.cubic 50 (30 + 20 * aK) (30 + 20 * aK) 50 30 50,
        Command.cubic (30 - 20 * aK) 50 10 (30 + 20 * aK) 10 30] := by
  unfold simplify
  simp only [simplifyGo]
  rw [arc1_eval, approx_eval_pi, approx_eval_3pi2]
  simp only [arcStateFold, List.foldl]
  norm_num
  rw [arc2_eval, approx_eval_zero, approx_eval_pi2]
  norm_num [mul_comm aK]

theorem circle_bbox :
    bbox [Command.move (10 : ℝ) 30,
        Command.cubic 10 (30 - 20 * aK) (30 - 20 * aK) 10 30 10,
        Command.cubic (30 + 20 * aK) 10 50 (30 - 20 * aK) 50 30,
        Command.cubic 50 (30 + 20 * aK) (30 + 20 * aK) 50 30 50,
        Command.cubic (30 - 20 * aK) 50 10 (30 + 20 * aK) 10 30] =
      some ⟨((10 : ℝ) : EReal), ((10 : ℝ) : EReal),
        ((50 : ℝ) : EReal), ((50 : ℝ) : EReal)⟩ := by
  unfold bbox
  rw [if_neg (by simp)]
  simp only [List.foldl, bboxStep, BBox.add_cubic]
  rw [add_point_new]
  simp only [noop_A, noop_B, noop_C, noop_D]
  simp only [add_point_coe]
  norm_num [min_def, max_def, EReal.coe_ne_top]

/-- C1 counterexample.  Normalizing the path
`M 10,30 A 20,20 0,0,1 50,30 A 20,20 0,0,1 10,30` does not yield exactly two
Cubic segments: each semicircular arc is split into two 90-degree Bézier
segments, so the normalized path contains four Cubic commands. -/
theorem c1_counterexample :
    ∃ cmds, parse "M 10,30 A 20,20 0,0,1 50,30 A 20,20 0,0,1 10,30" = .ok cmds ∧
      (simplify (cmds.map castCmd)).countP (fun c => isCubic c) ≠ 2 := by
  refine ⟨_, circle_parse, ?_⟩
  rw [circle_cast, circle_simplify]
  simp only [List.countP_cons, List.countP_nil, isCubic]
  norm_num

/-- C1 (amended).  Normalizing the full circle
`M 10,30 A 20,20 0,0,1 50,30 A 20,20 0,0,1 10,30` yields exactly four Cubic
segments (two per semicircular arc), and the bounding box of the normalized
path is exact for the circle of radius 20 centred at (30, 30):
`min_x = 10`, `min_y = 10`, `max_x = 50`, `max_y = 50`. -/
theorem c1_circle_four_cubics :
    ∃ cmds, parse "M 10,30 A 20,20 0,0,1 50,30 A 20,20 0,0,1 10,30" = .ok cmds ∧
      (simplify (cmds.map castCmd)).countP (fun c => isCubic c) = 4 ∧
      ∃ bb, bbox (simplify (cmds.map castCmd)) = some bb ∧
        bb.min_x = ((10 : ℝ) : EReal) ∧ bb.min_y = ((10 : ℝ) : EReal) ∧
        bb.max_x = ((50 : ℝ) : EReal) ∧ bb.max_y = ((50 : ℝ) : EReal) := by
  refine ⟨_, circle_parse, ?_, ?_⟩
  · rw [circle_cast, circle_simplify]
    simp only [List.countP_cons, List.countP_nil, isCubic]
    norm_num
  · rw [circle_cast, circle_simplify, circle_bbox]
    exact ⟨_, rfl, rfl, rfl, rfl, rfl⟩

end Svg